import Mathlib

/-!
Verification development for the kishu checkpoint/restore planner
(`kishu/planning/planner.py`, `kishu/planning/object_state.py`).

The planner source is embedded shallowly: machine state becomes explicit
record passing, Python exceptions become `Option`/error results, and the
external collaborators that are not part of the given sources (the idgraph
comparator module, the AHG, the optimizer, the value store) are modelled
from the specification where noted.
-/

/-! ## Fingerprint graphs (`kishu.planning.idgraph.GraphNode`)

Modelled from the spec: the `kishu/planning/idgraph.py` module (imported by
`planner.py` for `GraphNode`, `get_object_state`, `value_equals`) is not in
the sources.  Per spec §3 and §4.1 a fingerprint node carries an object
identity token, a type tag, a content payload, and ordered child edges;
primitive leaves carry only their literal; a back-edge node references an
already-built node by identity token. -/
inductive GraphNode where
  | prim (lit : String)
  | obj (idTok : Nat) (ty : String) (payload : String) (children : List GraphNode)
  | ref (idTok : Nat)

namespace GraphNode

mutual
/-- Structural equality on fingerprints (`GraphNode.__eq__`): identical
shape, type tags, identities and leaf contents (spec §4.2). -/
def beq : GraphNode → GraphNode → Bool
  | .prim l, .prim l' => l == l'
  | .obj i t p cs, .obj i' t' p' cs' => i == i' && t == t' && p == p' && beqList cs cs'
  | .ref i, .ref i' => i == i'
  | _, _ => false

/-- `beq` over child lists, position by position. -/
def beqList : List GraphNode → List GraphNode → Bool
  | [], [] => true
  | c :: cs, c' :: cs' => beq c c' && beqList cs cs'
  | _, _ => false
end

instance : BEq GraphNode := ⟨beq⟩

mutual
theorem beq_refl : ∀ a : GraphNode, beq a a = true
  | .prim l => by simp [beq]
  | .obj i t p cs => by simp [beq, beqList_refl cs]
  | .ref i => by simp [beq]

theorem beqList_refl : ∀ cs : List GraphNode, beqList cs cs = true
  | [] => by simp [beqList]
  | c :: cs => by simp [beqList, beq_refl c, beqList_refl cs]
end

mutual
theorem beq_eq : ∀ a b : GraphNode, beq a b = true → a = b
  | .prim l, .prim l', h => by
      simp only [beq, beq_iff_eq] at h
      rw [h]
  | .prim _, .obj _ _ _ _, h => by simp [beq] at h
  | .prim _, .ref _, h => by simp [beq] at h
  | .obj _ _ _ _, .prim _, h => by simp [beq] at h
  | .obj i t p cs, .obj i' t' p' cs', h => by
      simp only [beq, Bool.and_eq_true, beq_iff_eq] at h
      obtain ⟨⟨⟨h1, h2⟩, h3⟩, h4⟩ := h
      rw [h1, h2, h3, beqList_eq cs cs' h4]
  | .obj _ _ _ _, .ref _, h => by simp [beq] at h
  | .ref _, .prim _, h => by simp [beq] at h
  | .ref _, .obj _ _ _ _, h => by simp [beq] at h
  | .ref i, .ref i', h => by
      simp only [beq, beq_iff_eq] at h
      rw [h]

theorem beqList_eq : ∀ cs cs' : List GraphNode, beqList cs cs' = true → cs = cs'
  | [], [], _ => rfl
  | [], _ :: _, h => by simp [beqList] at h
  | _ :: _, [], h => by simp [beqList] at h
  | c :: cs, c' :: cs', h => by
      simp only [beqList, Bool.and_eq_true] at h
      rw [beq_eq c c' h.1, beqList_eq cs cs' h.2]
end

instance : DecidableEq GraphNode := fun a b =>
  decidable_of_iff (beq a b = true) ⟨beq_eq a b, fun h => h ▸ beq_refl a⟩

instance : LawfulBEq GraphNode where
  eq_of_beq h := beq_eq _ _ h
  rfl := beq_refl _

mutual
/-- Erase all identity tokens in a fingerprint (set them to `0`).
Per spec §4.2, value equality compares "shape, type tags, and leaf
contents, ignoring identity tokens". -/
def stripIds : GraphNode → GraphNode
  | .prim l => .prim l
  | .obj _ ty p cs => .obj 0 ty p (stripIdsList cs)
  | .ref _ => .ref 0

/-- `stripIds` mapped over a child list. -/
def stripIdsList : List GraphNode → List GraphNode
  | [] => []
  | c :: cs => stripIds c :: stripIdsList cs
end

mutual
/-- All identity tokens of non-primitive nodes occurring in a fingerprint
(primitive leaves carry no identity token, spec §4.1 branch 1). -/
def idTokens : GraphNode → List Nat
  | .prim _ => []
  | .obj i _ _ cs => i :: idTokensList cs
  | .ref i => [i]

/-- `idTokens` over a child list. -/
def idTokensList : List GraphNode → List Nat
  | [] => []
  | c :: cs => idTokens c ++ idTokensList cs
end

/-- Modelled from the spec (§4.2): `a.is_overlap(b)` holds iff the two
fingerprints share at least one non-primitive identity token. -/
def is_overlap (a b : GraphNode) : Bool :=
  a.idTokens.any (fun i => decide (i ∈ b.idTokens))

/-- Modelled from the spec (§4.6 step 4, "roots share identity and type"):
true iff both roots are non-primitive nodes with equal identity token and
equal type tag.  Primitive leaves carry no identity token, so they never
share one. -/
def is_root_id_and_type_equals (a b : GraphNode) : Bool :=
  match a, b with
  | .obj i t _ _, .obj i' t' _ _ => i == i' && t == t'
  | _, _ => false

end GraphNode

/-- Modelled from the spec (§4.2): `value_equals(a, b)` holds iff the two
fingerprints have identical shape, type tags and leaf contents, ignoring
identity tokens. -/
def value_equals (a b : GraphNode) : Bool :=
  a.stripIds == b.stripIds

/-- Value equality is reflexive. -/
theorem value_equals_refl (a : GraphNode) : value_equals a a = true := by
  simp [value_equals]

/-- Structural equality implies value equality (spec §4.2). -/
theorem value_equals_of_eq {a b : GraphNode} (h : a = b) : value_equals a b = true := by
  subst h; exact value_equals_refl a

/-! ## Association-list helpers

Python dictionaries are embedded as association lists with first-match
lookup; `ainsert` mirrors `d[k] = v` (replace the first binding, else
append) and `aerase` mirrors `del d[k]`. -/

/-- First-match association lookup (Python `d[k]`, absent key gives `none`). -/
def alookup {α β : Type} [DecidableEq α] : List (α × β) → α → Option β
  | [], _ => none
  | (k, v) :: rest, x => if k = x then some v else alookup rest x

/-- Python `d[k] = v`: replace the first binding of `k`, else append. -/
def ainsert {α β : Type} [DecidableEq α] : List (α × β) → α → β → List (α × β)
  | [], x, v => [(x, v)]
  | (k, w) :: rest, x, v => if k = x then (x, v) :: rest else (k, w) :: ainsert rest x v

/-- Python `del d[k]`: drop every binding of `k`. -/
def aerase {α β : Type} [DecidableEq α] (m : List (α × β)) (x : α) : List (α × β) :=
  m.filter (fun p => decide (p.1 ≠ x))

/-! ## Namespace (`kishu.jupyter.namespace.Namespace`)

Modelled from the spec (§6, "Namespace interface"): the namespace module is
not in the sources.  Because the planner only ever observes a live value
through `get_object_state(self._user_ns[k], {})` (the idgraph builder from
`kishu/planning/idgraph.py`, also not in the sources), each binding is
embedded directly as the fingerprint that builder would currently produce
for the bound value. -/
structure Namespace where
  vars : List (String × GraphNode)
  accessed : List String
deriving DecidableEq

namespace Namespace

/-- `keyset()`: the currently bound names. -/
def keyset (ns : Namespace) : List String := ns.vars.map Prod.fst

/-- `ns[k]`: fingerprint of the value bound to `k` (`none` = `KeyError`). -/
def get (ns : Namespace) (k : String) : Option GraphNode := alookup ns.vars k

/-- `k in ns`. -/
def containsName (ns : Namespace) (k : String) : Bool := (ns.get k).isSome

/-- `accessed_vars()`: names reported read by the instrumentation. -/
def accessed_vars (ns : Namespace) : List String := ns.accessed

/-- `reset_accessed_vars()`. -/
def reset_accessed_vars (ns : Namespace) : Namespace := { ns with accessed := [] }

end Namespace

/-! ## Application History Graph (`kishu.planning.ahg`)

Modelled from the spec: `kishu/planning/ahg.py` is not in the sources.
Spec §3 and §4.4 define the data model and `update_graph`; per design note
§9 ("Back-references in AHG") cell executions and variable snapshots live
in dense arenas and reference each other by index.  Variable-name sets are
kept as canonically ordered lists (order of first appearance in the
current keyset). -/

/-- A variable snapshot (spec §3): one co-variable group at one version. -/
structure VariableSnapshot where
  name : List String
  version : Nat
  deleted : Bool
  output_ce : Nat
  size : Nat
deriving DecidableEq

/-- The pair (name set, version) identifying a stored snapshot (spec §3). -/
structure VersionedName where
  name : List String
  version : Nat
deriving DecidableEq

/-- A cell execution (spec §3); `src_vss`/`dst_vss` are arena indices. -/
structure CellExecution where
  cell_num : Nat
  cell : String
  runtime_s : Nat
  src_vss : List Nat
  dst_vss : List Nat
deriving DecidableEq

/-- The AHG: snapshot arena, ordered cell-execution history, and the map
from each currently-active variable name to its latest snapshot's arena
index (spec §3). -/
structure AHGm where
  variable_snapshots : List VariableSnapshot
  cell_executions : List CellExecution
  active : List (String × Nat)
deriving DecidableEq

/-- Placeholder snapshot used for arena reads; arena indices produced by
`update_graph` are always in range, so it is never returned on the paths
the planner takes. -/
def defaultVS : VariableSnapshot := ⟨[], 0, true, 0, 0⟩

namespace AHGm

/-- Arena read `VSs[i]`. -/
def vsAt (g : AHGm) (i : Nat) : VariableSnapshot :=
  (g.variable_snapshots.get? i).getD defaultVS

/-- Names currently tracked by the AHG (`get_variable_names`). -/
def get_variable_names (g : AHGm) : List String := g.active.map Prod.fst

/-- Deduplicated arena indices of the currently-active snapshots. -/
def get_active_ids (g : AHGm) : List Nat := (g.active.map Prod.snd).eraseDups

/-- `get_active_variable_snapshots()`: the deduplicated set of active
snapshots (spec §4.4). -/
def get_active_variable_snapshots (g : AHGm) : List VariableSnapshot :=
  g.get_active_ids.map g.vsAt

/-- `get_active_variable_snapshots_dict()`: active snapshots keyed by
their (frozen) name set. -/
def get_active_variable_snapshots_dict (g : AHGm) : List (List String × VariableSnapshot) :=
  g.get_active_variable_snapshots.map (fun vs => (vs.name, vs))

/-- `get_cell_executions()`: the full ordered history (spec §4.4). -/
def get_cell_executions (g : AHGm) : List CellExecution := g.cell_executions

end AHGm

/-! ### Co-variable grouping (spec §4.4 step 2)

The active-names partition: connected components of the `linked_pairs`
relation restricted to the current names (union-find in the spec; realised
here as a bounded reachability closure). -/

/-- Names adjacent to `x` in the linked-pairs relation. -/
def pairNeighbors (pairs : List (String × String)) (x : String) : List String :=
  pairs.filterMap (fun p =>
    if p.1 = x then some p.2 else if p.2 = x then some p.1 else none)

/-- Bounded closure of a step relation, used for co-variable groups and
prerequisite-cell closures. -/
def closeOver {α : Type} [DecidableEq α] (step : α → List α) : Nat → List α → List α
  | 0, s => s
  | n + 1, s =>
    let next := ((s.map step).flatten.filter (fun y => decide (y ∉ s))).eraseDups
    if next.isEmpty then s else closeOver step n (s ++ next)

/-- The co-variable group of `x`: the current names reachable from `x`
through linked pairs, in current-keyset order (`x`'s own component). -/
def groupOf (current : List String) (pairs : List (String × String)) (x : String) : List String :=
  let r := closeOver (pairNeighbors pairs) current.length [x]
  current.filter (fun y => decide (y ∈ r))

/-- The active-names partition (spec §4.4 step 2): one group per connected
component of `linked_pairs` restricted to `current`. -/
def co_groups (current : List String) (pairs0 : List (String × String)) : List (List String) :=
  let pairs := pairs0.filter (fun p => decide (p.1 ∈ current) && decide (p.2 ∈ current))
  (current.map (groupOf current pairs)).eraseDups

namespace AHGm

/-- Spec §4.4 step 3: a group may re-point to its previous active snapshot
iff every member maps to one same snapshot, that snapshot's name set equals
the group (membership unchanged), and no member was modified.  Otherwise
the group needs a fresh snapshot. -/
def reuse_id (g : AHGm) (modified : List String) : List String → Option Nat
  | [] => none
  | n :: rest =>
    match alookup g.active n with
    | none => none
    | some i =>
      if (n :: rest).all (fun m => alookup g.active m == some i) &&
         (g.vsAt i).name == n :: rest &&
         (n :: rest).all (fun m => decide (m ∉ modified)) then
        some i
      else none

/-- Fold state for `update_graph`: (snapshot arena, active map, dst indices). -/
abbrev UGState := List VariableSnapshot × List (String × Nat) × List Nat

/-- Spec §4.4 step 3: per group, either re-point to the previous active
snapshot or create a fresh one (version/output_ce stamped). -/
def ug_groups_step (g : AHGm) (modified : List String) (version cn : Nat)
    (st : UGState) (gp : List String) : UGState :=
  let (arena, act, dst) := st
  match g.reuse_id modified gp with
  | some i => (arena, act, dst ++ [i])
  | none =>
    let vsid := arena.length
    let vs : VariableSnapshot := ⟨gp, version, false, cn, 0⟩
    (arena ++ [vs], gp.foldl (fun a n => ainsert a n vsid) act, dst ++ [vsid])

/-- Spec §4.4 step 5: per deleted name, create a terminal snapshot and
remove the name from the active map. -/
def ug_deleted_step (version cn : Nat) (st : UGState) (n : String) : UGState :=
  let (arena, act, dst) := st
  let vsid := arena.length
  (arena ++ [(⟨[n], version, true, cn, 0⟩ : VariableSnapshot)], aerase act n, dst ++ [vsid])

/-- Modelled from the spec (§4.4): `update_graph(code, version, runtime_s,
accessed, current_names, linked_pairs, modified, deleted)`.  Steps: allot
the next dense `cell_num`; partition `current_names` into co-variable
groups; give changed groups a fresh snapshot and unchanged groups a
re-pointer to their previous snapshot (invariant §8.7); record the prior
snapshot of every previously-active accessed-or-modified name in
`src_vss`; append a terminal snapshot per deleted name; append the cell
execution. -/
def update_graph (g : AHGm) (code : Option String) (version runtime : Nat)
    (accessed current : List String) (linked : List (String × String))
    (modified deleted : List String) : AHGm :=
  let cn := g.cell_executions.length
  let groups := co_groups current linked
  let st1 := groups.foldl (ug_groups_step g modified version cn)
    (g.variable_snapshots, g.active, [])
  let src := (((accessed ++ modified).eraseDups).filterMap (alookup g.active)).eraseDups
  let st2 := deleted.foldl (ug_deleted_step version cn) st1
  { variable_snapshots := st2.1,
    cell_executions := g.cell_executions ++
      [⟨cn, code.getD "", runtime, src, st2.2.2⟩],
    active := st2.2.1 }

end AHGm

/-! ## Planner state (`kishu.planning.planner.CheckpointRestorePlanner`) -/

/-- `ChangedVariables` (planner.py lines 30-46). -/
structure ChangedVariables where
  created_vars : List String
  modified_vars_value : List String
  modified_vars_structure : List String
  deleted_vars : List String
deriving DecidableEq

/-- The fields of `CheckpointRestorePlanner` together with its
`PlannerContext` configuration (planner.py lines 54-70). -/
structure PlannerState where
  ahg : AHGm
  user_ns : Namespace
  id_graph_map : List (String × GraphNode)
  pre_run_cell_vars : List String
  incremental_store : Bool
  incremental_load : Bool
deriving DecidableEq

/-- A freshly constructed planner: empty AHG, empty namespace, empty
fingerprint map (planner.py lines 54-67, non-incremental defaults). -/
def init_planner : PlannerState :=
  ⟨⟨[], [], []⟩, ⟨[], []⟩, [], [], false, false⟩

/-- Populate fingerprints for AHG-tracked names missing from the map but
still bound (planner.py lines 83-86). -/
def populate_missing (m : List (String × GraphNode)) (names : List String)
    (ns : Namespace) : List (String × GraphNode) :=
  names.foldl (fun acc v =>
    if (alookup acc v).isNone then
      match ns.get v with
      | some gr => ainsert acc v gr
      | none => acc
    else acc) m

/-- `pre_run_cell_update` (planner.py lines 76-86): snapshot the namespace
keyset and populate missing fingerprint entries for AHG variable names. -/
def pre_run_cell_update (s : PlannerState) : PlannerState :=
  { s with
    pre_run_cell_vars := s.user_ns.keyset,
    id_graph_map := populate_missing s.id_graph_map s.ahg.get_variable_names s.user_ns }

/-- Result of the modified-variable loop (planner.py lines 105-121):
in-place-access additions, value-modified names, structure-modified names,
and the updated fingerprint map. -/
structure ClassifyResult where
  acc : List String
  mv : List String
  ms : List String
  m' : List (String × GraphNode)

/-- The loop of planner.py lines 108-120 over the entries of
`_id_graph_map`: for each still-bound key build a fresh fingerprint,
compare by value and by structure, record an implicit access when the
roots share identity and type, and store the fresh fingerprint on
structural change. -/
def classify_modified (ns : Namespace) : List (String × GraphNode) → ClassifyResult
  | [] => ⟨[], [], [], []⟩
  | (k, g) :: rest =>
    let r := classify_modified ns rest
    match ns.get k with
    | none => ⟨r.acc, r.mv, r.ms, (k, g) :: r.m'⟩
    | some g' =>
      let accK := if GraphNode.beq g g' = false ∧ g.is_root_id_and_type_equals g' then [k] else []
      let mvK := if value_equals g g' = false then [k] else []
      let msK := if GraphNode.beq g g' = false then [k] else []
      let stored := if GraphNode.beq g g' = false then g' else g
      ⟨accK ++ r.acc, mvK ++ r.mv, msK ++ r.ms, (k, stored) :: r.m'⟩

/-- The unordered pairs `itertools.combinations(xs, 2)`. -/
def list_pairs {α : Type} : List α → List (α × α)
  | [] => []
  | x :: xs => xs.map (fun y => (x, y)) ++ list_pairs xs

/-- One pair of the linked-pairs loop: look both fingerprints up (a
missing entry is a `KeyError`, `none`) and keep the pair when the
fingerprints overlap. -/
def lvp_step (m : List (String × GraphNode)) (p : String × String)
    (acc : Option (List (String × String))) : Option (List (String × String)) :=
  match acc, alookup m p.1, alookup m p.2 with
  | some rest, some gx, some gy =>
    some (if gx.is_overlap gy then p :: rest else rest)
  | _, _, _ => none

/-- The linked-pairs computation (planner.py lines 127-130): for every
unordered pair of currently-bound names, look both fingerprints up in the
map and keep the pair when they overlap. -/
def linked_var_pairs (m : List (String × GraphNode)) (names : List String) :
    Option (List (String × String)) :=
  (list_pairs names).foldr (lvp_step m) (some [])

/-- All intermediate values of `post_run_cell_update` (planner.py lines
94-131), before the AHG update. -/
structure PostRunParts where
  accessed : List String
  created : List String
  deleted : List String
  mv : List String
  ms : List String
  m2 : List (String × GraphNode)
  linked : Option (List (String × String))

/-- The computation of planner.py lines 94-130: accessed (instrumented ∩
pre-cell, plus in-place-mutation additions), created, deleted, the
modified-variable classification, fingerprints for created names, and the
linked pairs (over the updated map). -/
def post_run_parts (s : PlannerState) : PostRunParts :=
  let accessed0 := s.user_ns.accessed_vars.filter (fun v => decide (v ∈ s.pre_run_cell_vars))
  let created := s.user_ns.keyset.filter (fun v => decide (v ∉ s.pre_run_cell_vars))
  let deleted := s.pre_run_cell_vars.filter (fun v => decide (v ∉ s.user_ns.keyset))
  let c := classify_modified s.user_ns s.id_graph_map
  let m2 := created.foldl (fun acc v =>
    match s.user_ns.get v with
    | some gr => ainsert acc v gr
    | none => acc) c.m'
  ⟨accessed0 ++ c.acc, created, deleted, c.mv, c.ms, m2,
    linked_var_pairs m2 s.user_ns.keyset⟩

/-- `post_run_cell_update` (planner.py lines 88-145).  The version stamp is
the value read from `time.monotonic_ns()`, passed in explicitly (the clock
is external); a `KeyError` in the linked-pairs computation propagates as
`none`. -/
def post_run_cell_update (s : PlannerState) (version : Nat) (code : Option String)
    (runtime : Option Nat) : Option (PlannerState × ChangedVariables) :=
  let p := post_run_parts s
  match p.linked with
  | none => none
  | some lp =>
    some ({ s with
        ahg := s.ahg.update_graph code version (runtime.getD 0) p.accessed
          s.user_ns.keyset lp p.ms p.deleted,
        id_graph_map := p.m2,
        user_ns := s.user_ns.reset_accessed_vars },
      ⟨p.created, p.mv, p.ms, p.deleted⟩)

/-- One kernel round: `pre_run_cell_update`, the (external) cell execution
replacing the namespace, then `post_run_cell_update` with the clock value
read at that point. -/
structure CellStep where
  ns : Namespace
  version : Nat
  code : String
  runtime : Nat

/-- Run one cell round on the planner. -/
def run_cell (s : PlannerState) (st : CellStep) : Option PlannerState :=
  let s1 := pre_run_cell_update s
  let s2 := { s1 with user_ns := st.ns }
  (post_run_cell_update s2 st.version (some st.code) (some st.runtime)).map Prod.fst

/-- Run a sequence of cell rounds; a raised `KeyError` stops the run. -/
def run_cells : PlannerState → List CellStep → Option PlannerState
  | s, [] => some s
  | s, st :: rest =>
    match run_cell s st with
    | none => none
    | some s' => run_cells s' rest

/-! ## State replacement on checkout (planner.py lines 265-276) -/

/-- Modelled from the spec (§7): failure mode of `AHG.deserialize` on a
corrupt string (`ahg.py` is not in the sources). -/
inductive AHGDeserializeError where
  | corrupt
deriving DecidableEq

/-- `replace_state` (planner.py lines 265-276), parametric in the external
`AHG.deserialize`.  In the source the deserialization runs before any
field assignment, so a raised error (returned alongside the old state)
leaves every planner field unchanged; on success the AHG and namespace are
replaced and the fingerprint map and pre-cell keyset are cleared. -/
def replace_state (deserialize : String → Except AHGDeserializeError AHGm)
    (s : PlannerState) (new_ahg_string : String) (new_user_ns : Namespace) :
    PlannerState × Option AHGDeserializeError :=
  match deserialize new_ahg_string with
  | .error e => (s, some e)
  | .ok g =>
    ({ s with
        ahg := g
        user_ns := new_user_ns
        id_graph_map := []
        pre_run_cell_vars := [] }, none)

/-! ## Plans (`kishu.planning.plan`) and restore-plan generation

`kishu/planning/plan.py` is not in the sources; per spec §4.7 a restore
plan is an ordered list of rerun-cell and load-variable actions, and a
checkpoint plan declares what to persist. -/

/-- One restore action (spec §4.7). -/
inductive RestoreAction where
  | rerun (cell_num : Nat) (code : String)
  | load (cell_num : Nat) (names : List String) (prereqs : List (Nat × String))
deriving DecidableEq

/-- Whether an action is a load-variable action. -/
def RestoreAction.isLoad : RestoreAction → Bool
  | .rerun _ _ => false
  | .load _ _ _ => true

/-- A checkpoint plan: the flat name list (non-incremental,
`CheckpointPlan.create`) or the snapshot records (incremental,
`IncrementalCheckpointPlan.create`). -/
inductive CheckpointPlanE where
  | flat (names : List String)
  | incr (vss : List VariableSnapshot)
deriving DecidableEq

/-- `defaultdict(list)` read of `ce_to_vs_map` (missing key gives `[]`). -/
def bucket (m : List (Nat × List (List String))) (cn : Nat) : List (List String) :=
  (m.lookup cn).getD []

/-- `defaultdict(list)` write: append `v` to the bucket of `cn`. -/
def bucket_add (m : List (Nat × List (List String))) (cn : Nat) (v : List String) :
    List (Nat × List (List String)) :=
  match m with
  | [] => [(cn, [v])]
  | (k, vs) :: rest =>
    if k = cn then (k, vs ++ [v]) :: rest else (k, vs) :: bucket_add rest cn v

/-- planner.py lines 239-242 build the load-action name list by reading
`vs.name` on each element of `ce_to_vs_map[ce.cell_num]`.  Those elements
are the `vs_name.name` values appended at line 190, i.e. `FrozenSet[str]`
values (see the annotation at line 218); a frozenset has no attribute
`name`, so the first iteration raises `AttributeError`.  The loop is
embedded as returning `none` whenever the list is non-empty. -/
def load_name_list : List (List String) → Option (List String)
  | [] => some []
  | _ :: _ => none

/-- The per-cell body of `_generate_restore_plan` (planner.py lines
232-246): emit a rerun action for a cell in `ces_to_recompute`; for a cell
with a non-empty `ce_to_vs_map` bucket, build the name list (which raises,
see `load_name_list`) and a load action whose fallback prerequisites pair
each prerequisite cell number from `req_func_mapping` with its code. -/
def grp_step (ces_to_recompute : List Nat) (ce_to_vs_map : List (Nat × List (List String)))
    (req_func_mapping : List (Nat × List Nat)) (ce_dict : List (Nat × CellExecution))
    (acc : Option (List RestoreAction)) (ce : CellExecution) : Option (List RestoreAction) :=
  match acc with
  | none => none
  | some acts =>
    let acts1 := if ce.cell_num ∈ ces_to_recompute then
      acts ++ [RestoreAction.rerun ce.cell_num ce.cell] else acts
    let b := bucket ce_to_vs_map ce.cell_num
    if b.length > 0 then
      match load_name_list b, req_func_mapping.lookup ce.cell_num with
      | some nl, some pr =>
        match pr.mapM (fun cn => (ce_dict.lookup cn).map (fun c => (cn, c.cell))) with
        | some prereqs => some (acts1 ++ [RestoreAction.load ce.cell_num nl prereqs])
        | none => none
      | _, _ => none
    else some acts1

/-- `_generate_restore_plan` (planner.py lines 215-247): walk the cell
executions in history order, applying `grp_step` to each. -/
def generate_restore_plan (g : AHGm) (ces_to_recompute : List Nat)
    (ce_to_vs_map : List (Nat × List (List String)))
    (req_func_mapping : List (Nat × List Nat)) : Option (List RestoreAction) :=
  let ce_dict := g.get_cell_executions.map (fun ce => (ce.cell_num, ce))
  g.get_cell_executions.foldl
    (grp_step ces_to_recompute ce_to_vs_map req_func_mapping ce_dict) (some [])

/-! ## Optimizer (`kishu.planning.optimizer`)

Modelled from the spec: `kishu/planning/optimizer.py` is not in the
sources.  Spec §4.5: the optimizer chooses `M ⊆ A` where `A` is the set of
active snapshots after filtering out those already stored; the current
policy ("migration speed is a finite large value") migrates every
serializable snapshot and recomputes only when forced.  Serializability
depends on fingerprint details not present in the optimizer's inputs, so
this model treats every snapshot as serializable: it migrates all of `A`
and recomputes nothing.  `req_func_mapping` maps each cell to the
transitive closure of prerequisite cells reached through `src_vss`. -/

/-- The cells producing the snapshots a cell reads. -/
def ce_parents (g : AHGm) (cn : Nat) : List Nat :=
  match g.cell_executions.find? (fun ce => ce.cell_num == cn) with
  | none => []
  | some ce => (ce.src_vss.map (fun i => (g.vsAt i).output_ce)).eraseDups

/-- Prerequisite-cell closure of a cell (the cell itself included). -/
def prereq_closure (g : AHGm) (cn : Nat) : List Nat :=
  closeOver (ce_parents g) g.cell_executions.length [cn]

/-- Modelled from the spec (§4.5): `Optimizer.compute_plan` under the
current migrate-everything-serializable policy, with every snapshot
serializable.  Returns `(vss_to_migrate, ces_to_recompute)` and, as the
optimizer's `req_func_mapping` attribute, the prerequisite closure of each
cell. -/
def compute_plan (g : AHGm) (active : List VariableSnapshot)
    (_stored : Option (List VersionedName)) :
    List VersionedName × List Nat × List (Nat × List Nat) :=
  (active.map (fun vs => ⟨vs.name, vs.version⟩), [],
    g.cell_executions.map (fun ce => (ce.cell_num, prereq_closure g ce.cell_num)))

/-! ## Commit-time plan generation (planner.py lines 147-213) -/

/-- Steps 1-2 of `generate_checkpoint_restore_plans` (planner.py lines
153-164): capture the active snapshots, populate missing fingerprints for
their names (a missing binding is a `KeyError`), and profile each active
snapshot's size (writing it into the arena).  Returns the updated AHG and
the active arena indices. -/
def plan_profile (profiler : List GraphNode → Nat) (s : PlannerState) :
    Option (AHGm × List Nat) :=
  let ids := s.ahg.get_active_ids
  let names := (s.ahg.get_active_variable_snapshots.map VariableSnapshot.name).flatten
  match names.foldlM (fun m n =>
      if (alookup m n).isSome then some m
      else (s.user_ns.get n).map (ainsert m n)) s.id_graph_map with
  | none => none
  | some _ =>
    (ids.foldlM (fun (g : AHGm) (i : Nat) =>
      let vs := g.vsAt i
      (vs.name.mapM s.user_ns.get).map (fun vals =>
        { g with variable_snapshots :=
            g.variable_snapshots.set i { vs with size := profiler vals } })) s.ahg).map
      (fun g2 => (g2, ids))

/-- Steps 1-3 of `generate_checkpoint_restore_plans`: profiling followed by
the incremental-store filter (planner.py lines 166-173), which drops every
active snapshot whose `VersionedName` is already stored under a parent
commit.  Returns the updated AHG and the candidate snapshots. -/
def plan_setup (profiler : List GraphNode → Nat) (storedVNs : List VersionedName)
    (s : PlannerState) : Option (AHGm × List VariableSnapshot) :=
  (plan_profile profiler s).map (fun r =>
    let (g2, ids) := r
    let active := ids.map g2.vsAt
    (g2, if s.incremental_store then
      active.filter (fun vs =>
        decide ((⟨vs.name, vs.version⟩ : VersionedName) ∉ storedVNs))
    else active))

/-- The `vss_to_migrate` computed inside `generate_checkpoint_restore_plans`
(planner.py line 185), exposed as its own definition; `computePlan` stands
for the external `Optimizer.compute_plan` and `storedVNs` for the store's
`get_stored_versioned_names` answer. -/
def planner_vss_to_migrate
    (computePlan : AHGm → List VariableSnapshot → Option (List VersionedName) →
      List VersionedName × List Nat × List (Nat × List Nat))
    (profiler : List GraphNode → Nat) (storedVNs : List VersionedName)
    (s : PlannerState) : List VersionedName :=
  match plan_setup profiler storedVNs s with
  | none => []
  | some (g2, cands) =>
    (computePlan g2 cands (if s.incremental_store then some storedVNs else none)).1

/-- The part of `generate_checkpoint_restore_plans` after profiling and
filtering (planner.py lines 175-213): run the optimizer, group the
migrated snapshots by producing cell (lines 188-190: the bucket values are
the `VersionedName.name` frozensets), build the checkpoint plan
(incremental keeps snapshot records, otherwise the flat name list), and
build the restore plan. -/
def gen_plans_core
    (computePlan : AHGm → List VariableSnapshot → Option (List VersionedName) →
      List VersionedName × List Nat × List (Nat × List Nat))
    (storedVNs : List VersionedName) (inc : Bool) (g2 : AHGm)
    (cands : List VariableSnapshot) : Option (CheckpointPlanE × List RestoreAction) :=
  let trip := computePlan g2 cands (if inc then some storedVNs else none)
  let vss_to_migrate := trip.1
  let ces_to_recompute := trip.2.1
  let req_func_mapping := trip.2.2
  let dict := g2.get_active_variable_snapshots_dict
  match vss_to_migrate.foldlM (fun m vn =>
      ((dict.lookup vn.name).map (fun vs => bucket_add m vs.output_ce vn.name)))
      ([] : List (Nat × List (List String))) with
  | none => none
  | some ce_to_vs_map =>
    let planOpt : Option CheckpointPlanE :=
      if inc then
        (vss_to_migrate.mapM (fun vn => dict.lookup vn.name)).map CheckpointPlanE.incr
      else
        some (CheckpointPlanE.flat (vss_to_migrate.map VersionedName.name).flatten)
    match planOpt with
    | none => none
    | some checkpoint_plan =>
      match generate_restore_plan g2 ces_to_recompute ce_to_vs_map req_func_mapping with
      | none => none
      | some restore_plan => some (checkpoint_plan, restore_plan)

/-- `generate_checkpoint_restore_plans` (planner.py lines 147-213):
profile, filter already-stored snapshots in incremental mode (via
`plan_setup`), then run the optimizer and build both plans (via
`gen_plans_core`). -/
def generate_checkpoint_restore_plans
    (computePlan : AHGm → List VariableSnapshot → Option (List VersionedName) →
      List VersionedName × List Nat × List (Nat × List Nat))
    (profiler : List GraphNode → Nat) (storedVNs : List VersionedName)
    (s : PlannerState) : Option (CheckpointPlanE × List RestoreAction) :=
  match plan_setup profiler storedVNs s with
  | none => none
  | some (g2, cands) =>
    gen_plans_core computePlan storedVNs s.incremental_store g2 cands

/-! ## The fingerprint builder (`kishu/planning/object_state.py`)

`object_state.py` is in the sources; the visitor it drives
(`kishu/planning/idgraph_visitor.idgraph` and `Visitor.check_visited`) is
not and is modelled from the spec (§4.1 "Cycle handling", §9 "Cyclic
object graphs"): the visited map is consulted first; a hit yields a
back-edge to the already-built node; a miss on a non-primitive object
records its identity before the children are traversed.  Live objects are
embedded as a heap keyed by identity token. -/
namespace ObjectState

/-- The shape of one live object, at the granularity the builder needs:
a primitive, a container with child identities, or a leaf object (byte
buffer, type object, callable, opaque). -/
inductive PyObjDesc where
  | primD (lit : String)
  | containerD (ty : String) (children : List Nat)
  | leafD (ty : String) (payload : String)
deriving DecidableEq

/-- A heap of live objects keyed by identity token (`id(obj)`). -/
structure PyHeap where
  objs : List (Nat × PyObjDesc)
deriving DecidableEq

mutual
/-- `get_object_state(obj, visited, visitor, update_state, include_id)`
(object_state.py lines 10-56): consult the visited map first (line 24);
on a hit return the reference to the already-built node (lines 25-26);
otherwise dispatch on the object's category and recurse through its
children, threading the visited map.  `fuel` bounds the recursion depth
(each recursive level first adds an unvisited identity to the map, so
`heap size + 1` always suffices); `include_id` is the source's flag,
which per spec §4.1 only affects digest computation. -/
def get_object_state (h : PyHeap) (include_id : Bool) :
    Nat → List Nat → Nat → GraphNode × List Nat
  | 0, visited, oid => (.ref oid, visited)
  | fuel + 1, visited, oid =>
    if oid ∈ visited then (.ref oid, visited)
    else
      match alookup h.objs oid with
      | none => (.prim "", visited)
      | some (.primD lit) => (.prim lit, visited)
      | some (.leafD ty payload) => (.obj oid ty payload [], oid :: visited)
      | some (.containerD ty cs) =>
        let r := get_children h include_id fuel (oid :: visited) cs
        (.obj oid ty "container" r.1, r.2)
termination_by fuel _ _ => (fuel, 0)

/-- Child traversal: each child is fingerprinted in order with the visited
map threaded left to right. -/
def get_children (h : PyHeap) (include_id : Bool) :
    Nat → List Nat → List Nat → List GraphNode × List Nat
  | _, visited, [] => ([], visited)
  | fuel, visited, c :: cs =>
    let r1 := get_object_state h include_id fuel visited c
    let r2 := get_children h include_id fuel r1.2 cs
    (r1.1 :: r2.1, r2.2)
termination_by fuel _ cs => (fuel, cs.length + 1)
end

/-- `create_idgraph(obj)` (object_state.py lines 5-7): build the
fingerprint of the object with identity `oid`, passing a fresh empty
visited map and `include_id = True`. -/
def create_idgraph (h : PyHeap) (oid : Nat) : GraphNode :=
  (get_object_state h true (h.objs.length + 1) [] oid).1

mutual
/-- The identity tokens of the non-back-edge (fully built) nodes of a
fingerprint, in preorder. -/
def builtIds : GraphNode → List Nat
  | .prim _ => []
  | .obj i _ _ cs => i :: builtIdsList cs
  | .ref _ => []

/-- `builtIds` over a child list. -/
def builtIdsList : List GraphNode → List Nat
  | [] => []
  | c :: cs => builtIds c ++ builtIdsList cs
end

/-! ### Dispatch (object_state.py lines 28-56, claim C7)

The dispatch chain probes the runtime category of the value with
`isinstance` checks in a fixed order; the nine probes below are the
conditions of the `if`/`elif` chain, and the final `else` (`visit_other`,
the opaque object) is the catch-all. -/

/-- The outcomes of the runtime `isinstance`/`callable`/`hasattr` probes
the dispatch chain performs on a value. -/
structure PyRuntimeView where
  isPrimitive : Bool
  isTuple : Bool
  isList : Bool
  isSet : Bool
  isDict : Bool
  isBytes : Bool
  isType : Bool
  isCallable : Bool
  hasReduceEx : Bool
deriving DecidableEq

/-- The ten dispatch targets of object_state.py lines 28-56. -/
inductive DispatchBranch where
  | primitive
  | tupleBr
  | listBr
  | setBr
  | dictBr
  | byteBr
  | typeBr
  | callableBr
  | customObj
  | otherObj
deriving DecidableEq

/-- The dispatch of `get_object_state` (object_state.py lines 28-56): the
`if`/`elif` chain in source order, with `visit_other` as the `else`. -/
def dispatch_branch (v : PyRuntimeView) : DispatchBranch :=
  if v.isPrimitive then .primitive
  else if v.isTuple then .tupleBr
  else if v.isList then .listBr
  else if v.isSet then .setBr
  else if v.isDict then .dictBr
  else if v.isBytes then .byteBr
  else if v.isType then .typeBr
  else if v.isCallable then .callableBr
  else if v.hasReduceEx then .customObj
  else .otherObj

/-- Position of each branch in the chain. -/
def branch_index : DispatchBranch → Nat
  | .primitive => 0
  | .tupleBr => 1
  | .listBr => 2
  | .setBr => 3
  | .dictBr => 4
  | .byteBr => 5
  | .typeBr => 6
  | .callableBr => 7
  | .customObj => 8
  | .otherObj => 9

/-- The guard probed at each position of the chain; position 9 (the
`else`, the opaque object) is unconditionally true. -/
def branch_guard (v : PyRuntimeView) : Nat → Bool
  | 0 => v.isPrimitive
  | 1 => v.isTuple
  | 2 => v.isList
  | 3 => v.isSet
  | 4 => v.isDict
  | 5 => v.isBytes
  | 6 => v.isType
  | 7 => v.isCallable
  | 8 => v.hasReduceEx
  | _ => true

end ObjectState

/-! ## Lemmas about the association-list helpers -/

theorem alookup_isSome_iff {α β : Type} [DecidableEq α] (m : List (α × β)) (k : α) :
    (alookup m k).isSome ↔ k ∈ m.map Prod.fst := by
  induction m with
  | nil => simp [alookup]
  | cons p rest ih =>
    obtain ⟨k0, v0⟩ := p
    by_cases hk : k0 = k
    · subst hk; simp [alookup]
    · simp [alookup, hk, ih, Ne.symm hk]

theorem alookup_eq_some_of_mem {α β : Type} [DecidableEq α] {m : List (α × β)} {k : α}
    {v : β} (hnd : (m.map Prod.fst).Nodup) (hm : (k, v) ∈ m) : alookup m k = some v := by
  induction m with
  | nil => simp at hm
  | cons p rest ih =>
    obtain ⟨k0, v0⟩ := p
    simp only [List.map_cons, List.nodup_cons] at hnd
    rcases List.mem_cons.mp hm with h | h
    · obtain ⟨h1, h2⟩ := Prod.mk.injEq .. ▸ h
      injection h with h1 h2
      subst h1; subst h2
      simp [alookup]
    · have hne : k0 ≠ k := by
        intro he; subst he
        exact hnd.1 (List.mem_map.mpr ⟨(k0, v), h, rfl⟩)
      simp [alookup, hne, ih hnd.2 h]

theorem mem_of_alookup_eq_some {α β : Type} [DecidableEq α] {m : List (α × β)} {k : α}
    {v : β} (h : alookup m k = some v) : (k, v) ∈ m := by
  induction m with
  | nil => simp [alookup] at h
  | cons p rest ih =>
    obtain ⟨k0, v0⟩ := p
    by_cases hk : k0 = k
    · subst hk
      simp only [alookup, if_pos] at h
      injection h with h
      rw [← h]
      exact List.mem_cons_self _ _
    · simp only [alookup, if_neg hk] at h
      exact List.mem_cons_of_mem _ (ih h)

theorem alookup_ainsert_self {α β : Type} [DecidableEq α] (m : List (α × β)) (k : α) (v : β) :
    alookup (ainsert m k v) k = some v := by
  induction m with
  | nil => simp [ainsert, alookup]
  | cons p rest ih =>
    obtain ⟨k0, v0⟩ := p
    by_cases hk : k0 = k
    · subst hk; simp [ainsert, alookup]
    · simp [ainsert, alookup, hk, ih]

theorem alookup_ainsert_ne {α β : Type} [DecidableEq α] (m : List (α × β)) (k k' : α) (v : β)
    (h : k ≠ k') : alookup (ainsert m k v) k' = alookup m k' := by
  induction m with
  | nil => simp [ainsert, alookup, h]
  | cons p rest ih =>
    obtain ⟨k0, v0⟩ := p
    by_cases hk : k0 = k
    · subst hk; simp [ainsert, alookup, h]
    · simp [ainsert, alookup, hk, ih]

theorem ainsert_keys {α β : Type} [DecidableEq α] (m : List (α × β)) (k k' : α) (v : β) :
    k' ∈ (ainsert m k v).map Prod.fst ↔ k' = k ∨ k' ∈ m.map Prod.fst := by
  induction m with
  | nil => simp [ainsert, eq_comm]
  | cons p rest ih =>
    obtain ⟨k0, v0⟩ := p
    by_cases hk : k0 = k
    · subst hk; simp [ainsert, eq_comm]
    · simp [ainsert, hk, ih]; tauto

/-! ## Lemmas about the modified-variable classification -/

theorem classify_m_keys (ns : Namespace) (m : List (String × GraphNode)) :
    (classify_modified ns m).m'.map Prod.fst = m.map Prod.fst := by
  induction m with
  | nil => rfl
  | cons p rest ih =>
    obtain ⟨k0, g0⟩ := p
    cases hget : ns.get k0 <;> simp [classify_modified, hget, ih]

theorem classify_ms_mem (ns : Namespace) (m : List (String × GraphNode)) (k : String)
    (hk : k ∈ (classify_modified ns m).ms) :
    k ∈ m.map Prod.fst ∧ ns.containsName k = true := by
  induction m with
  | nil => simp [classify_modified] at hk
  | cons p rest ih =>
    obtain ⟨k0, g0⟩ := p
    cases hget : ns.get k0 with
    | none =>
      simp only [classify_modified, hget] at hk
      have := ih hk
      exact ⟨by simp [this.1], this.2⟩
    | some g' =>
      simp only [classify_modified, hget, List.mem_append] at hk
      rcases hk with hk | hk
      · by_cases hc : GraphNode.beq g0 g' = false
        · simp only [if_pos hc, List.mem_singleton] at hk
          subst hk
          exact ⟨by simp, by simp [Namespace.containsName, hget]⟩
        · simp [if_neg hc] at hk
      · have := ih hk
        exact ⟨by simp [this.1], this.2⟩

theorem classify_mv_mem (ns : Namespace) (m : List (String × GraphNode)) (k : String)
    (hk : k ∈ (classify_modified ns m).mv) :
    k ∈ m.map Prod.fst ∧ ns.containsName k = true := by
  induction m with
  | nil => simp [classify_modified] at hk
  | cons p rest ih =>
    obtain ⟨k0, g0⟩ := p
    cases hget : ns.get k0 with
    | none =>
      simp only [classify_modified, hget] at hk
      have := ih hk
      exact ⟨by simp [this.1], this.2⟩
    | some g' =>
      simp only [classify_modified, hget, List.mem_append] at hk
      rcases hk with hk | hk
      · by_cases hc : value_equals g0 g' = false
        · simp only [if_pos hc, List.mem_singleton] at hk
          subst hk
          exact ⟨by simp, by simp [Namespace.containsName, hget]⟩
        · simp [if_neg hc] at hk
      · have := ih hk
        exact ⟨by simp [this.1], this.2⟩

/-- A value-modified name is also structure-modified: structural equality
implies value equality, so a value difference forces a structural one. -/
theorem classify_mv_subset_ms (ns : Namespace) (m : List (String × GraphNode)) (k : String)
    (hk : k ∈ (classify_modified ns m).mv) : k ∈ (classify_modified ns m).ms := by
  induction m with
  | nil => simp [classify_modified] at hk
  | cons p rest ih =>
    obtain ⟨k0, g0⟩ := p
    cases hget : ns.get k0 with
    | none =>
      simp only [classify_modified, hget] at hk ⊢
      exact ih hk
    | some g' =>
      simp only [classify_modified, hget, List.mem_append] at hk ⊢
      rcases hk with hk | hk
      · left
        by_cases hc : value_equals g0 g' = false
        · simp only [if_pos hc, List.mem_singleton] at hk
          subst hk
          have hb : GraphNode.beq g0 g' = false := by
            by_contra hb
            have : GraphNode.beq g0 g' = true := by
              cases hbe : GraphNode.beq g0 g' with
              | false => exact absurd hbe hb
              | true => rfl
            rw [value_equals_of_eq (GraphNode.beq_eq _ _ this)] at hc
            simp at hc
          simp [hb]
        · simp [if_neg hc] at hk
      · exact Or.inr (ih hk)

/-- Per-entry characterization of the modified-variable loop: for a
still-bound key `k` mapped to `g` with fresh fingerprint `g'`, membership
in the value-modified and structure-modified sets follows the two
comparisons, and a structural difference with shared root identity and
type puts `k` into the implicit-access additions. -/
theorem classify_char (ns : Namespace) (m : List (String × GraphNode)) (k : String)
    (g g' : GraphNode) (hnd : (m.map Prod.fst).Nodup) (hm : (k, g) ∈ m)
    (hget : ns.get k = some g') :
    (k ∈ (classify_modified ns m).mv ↔ value_equals g g' = false) ∧
    (k ∈ (classify_modified ns m).ms ↔ GraphNode.beq g g' = false) ∧
    (GraphNode.beq g g' = false → g.is_root_id_and_type_equals g' = true →
      k ∈ (classify_modified ns m).acc) := by
  induction m with
  | nil => simp at hm
  | cons p rest ih =>
    obtain ⟨k0, g0⟩ := p
    simp only [List.map_cons, List.nodup_cons] at hnd
    rcases List.mem_cons.mp hm with hh | hh
    · injection hh with h1 h2
      subst h1; subst h2
      have hkrest : k ∉ rest.map Prod.fst := hnd.1
      have hmv : k ∉ (classify_modified ns rest).mv := fun hc =>
        hkrest (classify_mv_mem ns rest k hc).1
      have hms : k ∉ (classify_modified ns rest).ms := fun hc =>
        hkrest (classify_ms_mem ns rest k hc).1
      refine ⟨?_, ?_, ?_⟩
      · simp only [classify_modified, hget, List.mem_append]
        by_cases hc : value_equals g g' = false
        · simp [hc]
        · simp [hc, hmv]
      · simp only [classify_modified, hget, List.mem_append]
        by_cases hc : GraphNode.beq g g' = false
        · simp [hc]
        · simp [hc, hms]
      · intro hb hr
        simp only [classify_modified, hget, List.mem_append]
        left
        simp [hb, hr]
    · have hne : k ≠ k0 := by
        intro he; subst he
        exact hnd.1 (List.mem_map.mpr ⟨(k, g), hh, rfl⟩)
      have step := ih hnd.2 hh
      cases hget0 : ns.get k0 with
      | none =>
        simpa only [classify_modified, hget0] using step
      | some g0' =>
        refine ⟨?_, ?_, ?_⟩
        · simp only [classify_modified, hget0, List.mem_append]
          rw [← step.1]
          constructor
          · rintro (hk | hk)
            · exfalso
              by_cases hc : value_equals g0 g0' = false
              · simp [hc] at hk; exact hne hk
              · simp [hc] at hk
            · exact hk
          · exact Or.inr
        · simp only [classify_modified, hget0, List.mem_append]
          rw [← step.2.1]
          constructor
          · rintro (hk | hk)
            · exfalso
              by_cases hc : GraphNode.beq g0 g0' = false
              · simp [hc] at hk; exact hne hk
              · simp [hc] at hk
            · exact hk
          · exact Or.inr
        · intro hb hr
          simp only [classify_modified, hget0, List.mem_append]
          exact Or.inr (step.2.2 hb hr)

/-- When every still-bound mapped fingerprint matches the current one, the
loop reports nothing and leaves the map unchanged. -/
theorem classify_unchanged (ns : Namespace) (m : List (String × GraphNode))
    (h : ∀ k g, (k, g) ∈ m → ns.get k = none ∨ ns.get k = some g) :
    classify_modified ns m = ⟨[], [], [], m⟩ := by
  induction m with
  | nil => rfl
  | cons p rest ih =>
    obtain ⟨k0, g0⟩ := p
    have hrest := ih (fun k g hm => h k g (List.mem_cons_of_mem _ hm))
    rcases h k0 g0 (List.mem_cons_self _ _) with h0 | h0
    · simp [classify_modified, h0, hrest]
    · simp [classify_modified, h0, hrest, GraphNode.beq_refl, value_equals_refl]

/-- The state on which `post_run_cell_update` runs in the kernel flow:
`pre_run_cell_update` ran on the pre-cell state, then the (external) cell
execution replaced the namespace. -/
def pre_post_state (s : PlannerState) (nsPost : Namespace) : PlannerState :=
  { pre_run_cell_update s with user_ns := nsPost }

/-! ## Claim theorems -/

/-- Claim C7: for every runtime view of a value, the dispatch of
`get_object_state` (object_state.py lines 28-56) selects exactly one
branch: the guard at the selected position holds, every earlier guard
fails, and the chain is total with the opaque-object branch (position 9,
the `else`) as catch-all, so no value is refused. -/
theorem C7_dispatch_exactly_one_branch (v : ObjectState.PyRuntimeView) :
    ObjectState.branch_guard v
      (ObjectState.branch_index (ObjectState.dispatch_branch v)) = true ∧
    (∀ j, j < ObjectState.branch_index (ObjectState.dispatch_branch v) →
      ObjectState.branch_guard v j = false) ∧
    ObjectState.branch_index (ObjectState.dispatch_branch v) ≤ 9 := by
  obtain ⟨p, t, l, s, d, b, ty, c, r⟩ := v
  cases p <;> cases t <;> cases l <;> cases s <;> cases d <;> cases b <;>
    cases ty <;> cases c <;> cases r <;> decide

/-- Claim C8: `replace_state` (planner.py lines 265-276) is atomic with
respect to deserialization failure: when `AHG.deserialize` raises, the
planner state comes back unchanged alongside the error; when it succeeds,
the AHG and namespace are replaced and the fingerprint map and pre-cell
keyset are cleared wholesale. -/
theorem C8_replace_state_atomicity
    (deserialize : String → Except AHGDeserializeError AHGm)
    (s : PlannerState) (str : String) (ns : Namespace) :
    (∀ e, deserialize str = .error e →
      replace_state deserialize s str ns = (s, some e)) ∧
    (∀ g, deserialize str = .ok g →
      replace_state deserialize s str ns =
        ({ s with
            ahg := g
            user_ns := ns
            id_graph_map := []
            pre_run_cell_vars := [] }, none)) := by
  constructor
  · intro e he
    simp [replace_state, he]
  · intro g hg
    simp [replace_state, hg]

/-- Witness for C8 at a concrete failing deserializer and a concrete
succeeding one. -/
theorem C8_replace_state_atomicity_witness :
    replace_state (fun _ => .error .corrupt) init_planner "bad" ⟨[], []⟩ =
      (init_planner, some .corrupt) :=
  (C8_replace_state_atomicity (fun _ => .error .corrupt) init_planner "bad"
    ⟨[], []⟩).1 .corrupt rfl

/-- Claim C1: for a still-bound name `k` already in the fingerprint map
(old fingerprint `g`, freshly built fingerprint `g'`), the loop of
planner.py lines 108-120 puts `k` into `modified_vars_value` iff the
fingerprints are not value-equal, into `modified_vars_structure` iff they
are not structurally equal, and, when they differ structurally while the
roots share identity token and type tag (in-place mutation), adds `k` to
the accessed set that `post_run_cell_update` passes to `AHG.update_graph`
(planner.py lines 116-118 and 134-143) independently of what the namespace
instrumentation reported. -/
theorem C1_modification_classification (s : PlannerState) (k : String)
    (g g' : GraphNode) (hnd : (s.id_graph_map.map Prod.fst).Nodup)
    (hm : (k, g) ∈ s.id_graph_map) (hget : s.user_ns.get k = some g') :
    (k ∈ (classify_modified s.user_ns s.id_graph_map).mv ↔
      value_equals g g' = false) ∧
    (k ∈ (classify_modified s.user_ns s.id_graph_map).ms ↔
      GraphNode.beq g g' = false) ∧
    (GraphNode.beq g g' = false → g.is_root_id_and_type_equals g' = true →
      k ∈ (post_run_parts s).accessed) := by
  have hc := classify_char s.user_ns s.id_graph_map k g g' hnd hm hget
  refine ⟨hc.1, hc.2.1, fun hb hr => ?_⟩
  have hacc := hc.2.2 hb hr
  simp only [post_run_parts, List.mem_append]
  exact Or.inr hacc

/-- Witness for C1: an in-place list append (`xs.append(2)`): same root
identity and type, a new child; `xs` lands in both modified sets and in
the accessed set although the instrumentation reported nothing. -/
theorem C1_modification_classification_witness :
    let g : GraphNode := .obj 1 "list" "container" [.prim "1"]
    let g' : GraphNode := .obj 1 "list" "container" [.prim "1", .prim "2"]
    let s : PlannerState :=
      ⟨⟨[], [], []⟩, ⟨[("xs", g')], []⟩, [("xs", g)], ["xs"], false, false⟩
    ("xs" ∈ (classify_modified s.user_ns s.id_graph_map).mv ↔
      value_equals g g' = false) ∧
    ("xs" ∈ (classify_modified s.user_ns s.id_graph_map).ms ↔
      GraphNode.beq g g' = false) ∧
    (GraphNode.beq g g' = false → g.is_root_id_and_type_equals g' = true →
      "xs" ∈ (post_run_parts s).accessed) :=
  C1_modification_classification _ "xs" _ _ (by decide) (by decide) (by decide)

/-- A one-cell AHG: cell 0 ran `x = 1` and produced the snapshot for
the group containing only `x`. -/
def c2_ahg : AHGm :=
  ⟨[⟨["x"], 1, false, 0, 0⟩], [⟨0, "x = 1", 0, [], [0]⟩], [("x", 0)]⟩

/-- Claim C2 (code bug, evaluated at the failing input): with one migrated
snapshot (`ce_to_vs_map = ((0, (x))), req_func_mapping = ((0, ()))`),
`_generate_restore_plan` raises `AttributeError` while building the load
action's name list (planner.py line 241 reads `vs.name` on a
`FrozenSet[str]`, see line 218 and line 190), so no plan is produced —
although the claim (and spec §4.7) promises a `LoadVariable` action
carrying the snapshot's names.  The rerun-only path, by contrast, behaves
as the claim states: walking the history in ascending `cell_num` and
emitting one `RerunCell` per cell in `ces_to_recompute`. -/
theorem C2_restore_plan_frozenset_name_bug :
    generate_restore_plan c2_ahg [] [(0, [["x"]])] [(0, [])] = none ∧
    generate_restore_plan c2_ahg [0] [] [] =
      some [RestoreAction.rerun 0 "x = 1"] := by
  constructor
  · rfl
  · rfl

/-- Claim C4: every successful `post_run_cell_update` returns a
`ChangedVariables` whose created and deleted sets are disjoint, whose
value-modified set is contained in the structure-modified set, and whose
four sets mention only names bound now or bound before the cell ran
(planner.py lines 101-145). -/
theorem C4_changed_variables_invariants (s : PlannerState) (version : Nat)
    (code : Option String) (runtime : Option Nat) (s' : PlannerState)
    (cv : ChangedVariables)
    (h : post_run_cell_update s version code runtime = some (s', cv)) :
    (∀ k, k ∈ cv.created_vars → k ∉ cv.deleted_vars) ∧
    (∀ k, k ∈ cv.modified_vars_value → k ∈ cv.modified_vars_structure) ∧
    (∀ k, k ∈ cv.created_vars ∨ k ∈ cv.modified_vars_value ∨
        k ∈ cv.modified_vars_structure ∨ k ∈ cv.deleted_vars →
      k ∈ s.user_ns.keyset ∨ k ∈ s.pre_run_cell_vars) := by
  have hcv : cv = ⟨(post_run_parts s).created, (post_run_parts s).mv,
      (post_run_parts s).ms, (post_run_parts s).deleted⟩ := by
    simp only [post_run_cell_update] at h
    cases hl : (post_run_parts s).linked with
    | none => rw [hl] at h; simp at h
    | some lp => rw [hl] at h; simp at h; exact h.2.symm
  subst hcv
  have hcreated : (post_run_parts s).created =
      s.user_ns.keyset.filter (fun v => decide (v ∉ s.pre_run_cell_vars)) := rfl
  have hdeleted : (post_run_parts s).deleted =
      s.pre_run_cell_vars.filter (fun v => decide (v ∉ s.user_ns.keyset)) := rfl
  have hmv : (post_run_parts s).mv = (classify_modified s.user_ns s.id_graph_map).mv := rfl
  have hms : (post_run_parts s).ms = (classify_modified s.user_ns s.id_graph_map).ms := rfl
  refine ⟨?_, ?_, ?_⟩
  · intro k hkc hkd
    rw [hcreated] at hkc
    rw [hdeleted] at hkd
    have h1 := List.of_mem_filter hkc
    have h2 := List.mem_of_mem_filter hkd
    simp at h1
    exact h1 h2
  · intro k hk
    rw [hmv] at hk
    rw [hms]
    exact classify_mv_subset_ms _ _ _ hk
  · intro k hk
    rcases hk with hk | hk | hk | hk
    · rw [hcreated] at hk
      exact Or.inl (List.mem_of_mem_filter hk)
    · rw [hmv] at hk
      have := (classify_mv_mem _ _ _ hk).2
      simp only [Namespace.containsName, Namespace.get] at this
      exact Or.inl ((alookup_isSome_iff _ _).mp (by simpa using this))
    · rw [hms] at hk
      have := (classify_ms_mem _ _ _ hk).2
      simp only [Namespace.containsName, Namespace.get] at this
      exact Or.inl ((alookup_isSome_iff _ _).mp (by simpa using this))
    · rw [hdeleted] at hk
      exact Or.inr (List.mem_of_mem_filter hk)

/-- A planner state that creates `y` and modifies `x` in place. -/
def c4_state : PlannerState :=
  ⟨⟨[], [], []⟩,
   ⟨[("x", .obj 1 "list" "container" [.prim "1", .prim "2"]), ("y", .prim "2")], []⟩,
   [("x", .obj 1 "list" "container" [.prim "1"])], ["x"], false, false⟩

/-- The state and report that update produces. -/
def c4_result : PlannerState × ChangedVariables :=
  (post_run_cell_update c4_state 7 (some "c") (some 0)).getD
    (c4_state, ⟨[], [], [], []⟩)

/-- Witness for C4 at the concrete run on `c4_state`. -/
theorem C4_changed_variables_invariants_witness :
    (∀ k, k ∈ c4_result.2.created_vars → k ∉ c4_result.2.deleted_vars) ∧
    (∀ k, k ∈ c4_result.2.modified_vars_value →
      k ∈ c4_result.2.modified_vars_structure) ∧
    (∀ k, k ∈ c4_result.2.created_vars ∨ k ∈ c4_result.2.modified_vars_value ∨
        k ∈ c4_result.2.modified_vars_structure ∨ k ∈ c4_result.2.deleted_vars →
      k ∈ c4_state.user_ns.keyset ∨ k ∈ c4_state.pre_run_cell_vars) :=
  C4_changed_variables_invariants c4_state 7 (some "c") (some 0)
    c4_result.1 c4_result.2 rfl

/-! ## Lemmas about linked-pair lookups and map population (claim C10) -/

theorem list_pairs_mem {α : Type} (names : List α) (p : α × α)
    (hp : p ∈ list_pairs names) : p.1 ∈ names ∧ p.2 ∈ names := by
  induction names with
  | nil => simp [list_pairs] at hp
  | cons x xs ih =>
    simp only [list_pairs, List.mem_append] at hp
    rcases hp with hp | hp
    · obtain ⟨y, hy, hyp⟩ := List.mem_map.mp hp
      subst hyp
      exact ⟨List.mem_cons_self _ _, List.mem_cons_of_mem _ hy⟩
    · have := ih hp
      exact ⟨List.mem_cons_of_mem _ this.1, List.mem_cons_of_mem _ this.2⟩

/-- With at least two bound names, every name occurs in some unordered
pair. -/
theorem mem_some_pair (names : List String) (n : String) (hn : n ∈ names)
    (h2 : 2 ≤ names.length) :
    ∃ p ∈ list_pairs names, p.1 = n ∨ p.2 = n := by
  cases names with
  | nil => simp at hn
  | cons x xs =>
    rcases List.mem_cons.mp hn with rfl | hmem
    · cases xs with
      | nil => simp at h2
      | cons y ys =>
        refine ⟨(n, y), ?_, Or.inl rfl⟩
        simp [list_pairs]
    · refine ⟨(x, n), ?_, Or.inr rfl⟩
      simp only [list_pairs, List.mem_append]
      exact Or.inl (List.mem_map.mpr ⟨n, hmem, rfl⟩)

theorem lvp_foldr_isSome (m : List (String × GraphNode))
    (ps : List (String × String))
    (hps : ∀ p ∈ ps, (alookup m p.1).isSome ∧ (alookup m p.2).isSome) :
    (ps.foldr (lvp_step m) (some [])).isSome := by
  induction ps with
  | nil => simp
  | cons p ps ih =>
    have hacc := ih (fun q hq => hps q (List.mem_cons_of_mem _ hq))
    obtain ⟨rest, hrest⟩ := Option.isSome_iff_exists.mp hacc
    obtain ⟨gx, hgx⟩ := Option.isSome_iff_exists.mp (hps p (List.mem_cons_self _ _)).1
    obtain ⟨gy, hgy⟩ := Option.isSome_iff_exists.mp (hps p (List.mem_cons_self _ _)).2
    simp only [List.foldr_cons, hrest, lvp_step, hgx, hgy]
    rfl

theorem lvp_foldr_none (m : List (String × GraphNode)) (ps : List (String × String))
    (p : String × String) (hp : p ∈ ps)
    (hf : alookup m p.1 = none ∨ alookup m p.2 = none) :
    ps.foldr (lvp_step m) (some []) = none := by
  induction ps with
  | nil => simp at hp
  | cons q ps ih =>
    rcases List.mem_cons.mp hp with rfl | hmem
    · simp only [List.foldr_cons, lvp_step]
      rcases hf with hf | hf <;> rw [hf] <;>
        cases ps.foldr (lvp_step m) (some []) <;>
        cases alookup m p.1 <;> cases alookup m p.2 <;> rfl
    · simp only [List.foldr_cons, ih hmem, lvp_step]

theorem linked_var_pairs_isSome (m : List (String × GraphNode)) (names : List String)
    (h : ∀ n ∈ names, (alookup m n).isSome) :
    (linked_var_pairs m names).isSome :=
  lvp_foldr_isSome m (list_pairs names) (fun p hp =>
    ⟨h p.1 (list_pairs_mem names p hp).1, h p.2 (list_pairs_mem names p hp).2⟩)

theorem linked_var_pairs_none (m : List (String × GraphNode)) (names : List String)
    (p : String × String) (hp : p ∈ list_pairs names)
    (hf : alookup m p.1 = none ∨ alookup m p.2 = none) :
    linked_var_pairs m names = none :=
  lvp_foldr_none m (list_pairs names) p hp hf

/-- Keys are never removed by `populate_missing`. -/
theorem populate_missing_mono (ns : Namespace) (names : List String)
    (m : List (String × GraphNode)) (k : String) (hk : k ∈ m.map Prod.fst) :
    k ∈ (populate_missing m names ns).map Prod.fst := by
  induction names generalizing m with
  | nil => exact hk
  | cons v vs ih =>
    simp only [populate_missing, List.foldl_cons]
    apply ih
    by_cases hl : (alookup m v).isNone
    · cases hget : ns.get v with
      | none => simpa [hl, hget] using hk
      | some gr =>
        simp only [hl, if_pos, hget]
        exact (ainsert_keys m v k gr).mpr (Or.inr hk)
    · simpa [hl] using hk

/-- A tracked, still-bound name ends up in the populated map. -/
theorem populate_missing_tracked (ns : Namespace) (names : List String)
    (m : List (String × GraphNode)) (k : String) (hk : k ∈ names)
    (hg : (ns.get k).isSome) :
    k ∈ (populate_missing m names ns).map Prod.fst := by
  induction names generalizing m with
  | nil => simp at hk
  | cons v vs ih =>
    simp only [populate_missing, List.foldl_cons]
    rcases List.mem_cons.mp hk with rfl | hmem
    · by_cases hl : (alookup m k).isNone
      · obtain ⟨gr, hgr⟩ := Option.isSome_iff_exists.mp hg
        simp only [hl, if_pos, hgr]
        have : k ∈ (ainsert m k gr).map Prod.fst := (ainsert_keys m k k gr).mpr (Or.inl rfl)
        exact populate_missing_mono ns vs _ k this
      · have : k ∈ m.map Prod.fst := by
          rw [← alookup_isSome_iff]
          cases hv : alookup m k with
          | none => rw [hv] at hl; simp at hl
          | some _ => simp
        simp only [hl, if_neg]
        exact populate_missing_mono ns vs _ k (by simpa [hl] using this)
    · exact ih _ hmem

/-- A name neither in the map nor among the tracked names stays absent. -/
theorem populate_missing_not_mem (ns : Namespace) (names : List String)
    (m : List (String × GraphNode)) (k : String) (hk : k ∉ m.map Prod.fst)
    (hn : k ∉ names) : k ∉ (populate_missing m names ns).map Prod.fst := by
  induction names generalizing m with
  | nil => exact hk
  | cons v vs ih =>
    simp only [populate_missing, List.foldl_cons]
    have hkv : k ≠ v := fun he => hn (he ▸ List.mem_cons_self _ _)
    have hvs : k ∉ vs := fun hh => hn (List.mem_cons_of_mem _ hh)
    apply ih _ _ hvs
    by_cases hl : (alookup m v).isNone
    · cases hget : ns.get v with
      | none => simpa [hl, hget] using hk
      | some gr =>
        simp only [hl, if_pos, hget]
        intro hc
        rcases (ainsert_keys m v k gr).mp hc with h | h
        · exact hkv h
        · exact hk h
    · simpa [hl] using hk

/-- Keys of the post-cell map `m2`: the classified map's keys plus the
created names (each bound, hence inserted). -/
theorem post_m2_keys_of_created (ns : Namespace) (created : List String)
    (m : List (String × GraphNode)) (k : String) :
    (k ∈ m.map Prod.fst ∨ (k ∈ created ∧ (ns.get k).isSome)) →
    k ∈ (created.foldl (fun acc v =>
      match ns.get v with
      | some gr => ainsert acc v gr
      | none => acc) m).map Prod.fst := by
  induction created generalizing m with
  | nil =>
    rintro (h | h)
    · exact h
    · simp at h
  | cons v vs ih =>
    intro h
    simp only [List.foldl_cons]
    apply ih
    rcases h with h | ⟨hmem, hg⟩
    · left
      cases hget : ns.get v with
      | none => simpa [hget] using h
      | some gr =>
        simp only [hget]
        exact (ainsert_keys m v k gr).mpr (Or.inr h)
    · rcases List.mem_cons.mp hmem with rfl | hmem'
      · left
        obtain ⟨gr, hgr⟩ := Option.isSome_iff_exists.mp hg
        simp only [hgr]
        exact (ainsert_keys m k k gr).mpr (Or.inl rfl)
      · exact Or.inr ⟨hmem', hg⟩

/-- A name absent from the classified map and not created stays absent
from `m2`. -/
theorem post_m2_keys_not_mem (ns : Namespace) (created : List String)
    (m : List (String × GraphNode)) (k : String) (hk : k ∉ m.map Prod.fst)
    (hc : k ∉ created) :
    k ∉ (created.foldl (fun acc v =>
      match ns.get v with
      | some gr => ainsert acc v gr
      | none => acc) m).map Prod.fst := by
  induction created generalizing m with
  | nil => exact hk
  | cons v vs ih =>
    simp only [List.foldl_cons]
    have hkv : k ≠ v := fun he => hc (he ▸ List.mem_cons_self _ _)
    have hvs : k ∉ vs := fun hh => hc (List.mem_cons_of_mem _ hh)
    apply ih _ _ hvs
    cases hget : ns.get v with
    | none => simpa [hget] using hk
    | some gr =>
      simp only [hget]
      intro hcon
      rcases (ainsert_keys m v k gr).mp hcon with h | h
      · exact hkv h
      · exact hk h

/-! ## Lemmas about `post_run_cell_update`'s outcome -/

theorem post_run_isSome_iff (s : PlannerState) (version : Nat) (code : Option String)
    (runtime : Option Nat) :
    (post_run_cell_update s version code runtime).isSome =
      ((post_run_parts s).linked).isSome := by
  simp only [post_run_cell_update]
  cases (post_run_parts s).linked <;> rfl

theorem post_run_eq_none (s : PlannerState) (version : Nat) (code : Option String)
    (runtime : Option Nat) (h : (post_run_parts s).linked = none) :
    post_run_cell_update s version code runtime = none := by
  simp only [post_run_cell_update, h]

theorem post_run_some_cv (s : PlannerState) (version : Nat) (code : Option String)
    (runtime : Option Nat) (s' : PlannerState) (cv : ChangedVariables)
    (h : post_run_cell_update s version code runtime = some (s', cv)) :
    cv = ⟨(post_run_parts s).created, (post_run_parts s).mv,
      (post_run_parts s).ms, (post_run_parts s).deleted⟩ := by
  simp only [post_run_cell_update] at h
  cases hl : (post_run_parts s).linked with
  | none => rw [hl] at h; simp at h
  | some lp => rw [hl] at h; simp at h; exact h.2.symm

/-- Claim C10 (amended): in the pre-hook/cell/post-hook flow, when every
name bound before the cell is tracked by the AHG or already fingerprinted,
every linked-pair lookup succeeds and `post_run_cell_update` completes; a
surviving pre-cell name absent from both, **when at least one other name
is currently bound**, makes the lookup raise `KeyError` (planner.py line
129); and a name absent from the fingerprint map is never reported as
modified. -/
theorem C10_linked_pair_lookup_safety (s : PlannerState) (nsPost : Namespace)
    (version : Nat) (code : Option String) (runtime : Option Nat) :
    ((∀ n, n ∈ s.user_ns.keyset →
        n ∈ s.ahg.get_variable_names ∨ n ∈ s.id_graph_map.map Prod.fst) →
      (post_run_cell_update (pre_post_state s nsPost) version code runtime).isSome) ∧
    (∀ n, n ∈ nsPost.keyset → n ∈ s.user_ns.keyset →
      n ∉ s.ahg.get_variable_names → n ∉ s.id_graph_map.map Prod.fst →
      2 ≤ nsPost.keyset.length →
      post_run_cell_update (pre_post_state s nsPost) version code runtime = none) ∧
    (∀ s' cv, post_run_cell_update (pre_post_state s nsPost) version code runtime =
        some (s', cv) →
      ∀ n, n ∉ (pre_post_state s nsPost).id_graph_map.map Prod.fst →
        n ∉ cv.modified_vars_value ∧ n ∉ cv.modified_vars_structure) := by
  have hget_of_mem : ∀ (ns : Namespace) (n : String), n ∈ ns.keyset → (ns.get n).isSome := by
    intro ns n hn
    rw [Namespace.get, alookup_isSome_iff]
    exact hn
  refine ⟨?_, ?_, ?_⟩
  · intro hpre
    rw [post_run_isSome_iff]
    have hkeys : ∀ n ∈ nsPost.keyset,
        (alookup (post_run_parts (pre_post_state s nsPost)).m2 n).isSome := by
      intro n hn
      rw [alookup_isSome_iff]
      simp only [post_run_parts]
      apply post_m2_keys_of_created
      by_cases hb : n ∈ s.user_ns.keyset
      · left
        rw [classify_m_keys]
        show n ∈ ((pre_post_state s nsPost).id_graph_map).map Prod.fst
        rcases hpre n hb with ht | hm
        · exact populate_missing_tracked s.user_ns _ _ n ht (hget_of_mem _ n hb)
        · exact populate_missing_mono s.user_ns _ _ n hm
      · right
        refine ⟨?_, hget_of_mem nsPost n hn⟩
        exact List.mem_filter.mpr ⟨hn, by simpa using hb⟩
    have := linked_var_pairs_isSome _ nsPost.keyset hkeys
    exact this
  · intro n hn hb ht hm h2
    apply post_run_eq_none
    have hnm2 : alookup (post_run_parts (pre_post_state s nsPost)).m2 n = none := by
      have hnot : n ∉ ((post_run_parts (pre_post_state s nsPost)).m2).map Prod.fst := by
        simp only [post_run_parts]
        apply post_m2_keys_not_mem
        · rw [classify_m_keys]
          show n ∉ ((pre_post_state s nsPost).id_graph_map).map Prod.fst
          exact populate_missing_not_mem s.user_ns _ _ n hm ht
        · intro hc
          have := List.of_mem_filter hc
          simp at this
          exact this hb
      cases hv : alookup (post_run_parts (pre_post_state s nsPost)).m2 n with
      | none => rfl
      | some g =>
        exact absurd ((alookup_isSome_iff _ _).mp (by simp [hv])) hnot
    obtain ⟨p, hp, hpn⟩ := mem_some_pair nsPost.keyset n hn h2
    refine linked_var_pairs_none _ _ p hp ?_
    rcases hpn with hpn | hpn
    · exact Or.inl (hpn ▸ hnm2)
    · exact Or.inr (hpn ▸ hnm2)
  · intro s' cv h n hn
    have hcv := post_run_some_cv _ _ _ _ _ _ h
    subst hcv
    constructor
    · intro hc
      exact hn (classify_mv_mem _ _ _ hc).1
    · intro hc
      exact hn (classify_ms_mem _ _ _ hc).1

/-- Counterexample to claim C10 as stated: with a single bound name `a`
that was bound before the cell and is absent from both the AHG and the
fingerprint map, the pair loop iterates over no pairs, so no lookup is
performed and `post_run_cell_update` completes — the claimed lookup
failure does not occur. -/
theorem C10_single_name_no_failure :
    (post_run_cell_update
      (pre_post_state
        ⟨⟨[], [], []⟩, ⟨[("a", .prim "1")], []⟩, [], [], false, false⟩
        ⟨[("a", .prim "1")], []⟩) 1 (some "") (some 0)).isSome = true := by
  rfl

/-- Witness for C10: under the precondition (the single pre-bound name is
in the fingerprint map) the update completes. -/
theorem C10_linked_pair_lookup_safety_witness :
    (post_run_cell_update
      (pre_post_state
        ⟨⟨[], [], []⟩, ⟨[("a", .prim "1")], []⟩, [("a", .prim "1")], [], false, false⟩
        ⟨[("a", .prim "1"), ("b", .prim "2")], []⟩) 1 (some "") (some 0)).isSome :=
  (C10_linked_pair_lookup_safety
    ⟨⟨[], [], []⟩, ⟨[("a", .prim "1")], []⟩, [("a", .prim "1")], [], false, false⟩
    ⟨[("a", .prim "1"), ("b", .prim "2")], []⟩ 1 (some "") (some 0)).1
    (by decide)

namespace ObjectState

mutual
/-- Builder invariant: the fully built (non-back-edge) node identities of
one `get_object_state` call are pairwise distinct, none was already
visited, and the returned visited map is exactly the input plus them. -/
theorem go_spec (h : PyHeap) (inc : Bool) :
    ∀ (fuel : Nat) (visited : List Nat) (oid : Nat),
      (builtIds (get_object_state h inc fuel visited oid).1).Nodup ∧
      (∀ i, i ∈ builtIds (get_object_state h inc fuel visited oid).1 → i ∉ visited) ∧
      (∀ i, i ∈ (get_object_state h inc fuel visited oid).2 ↔
        i ∈ visited ∨ i ∈ builtIds (get_object_state h inc fuel visited oid).1)
  | 0, visited, oid => by
    simp [get_object_state, builtIds]
  | fuel + 1, visited, oid => by
    by_cases hv : oid ∈ visited
    · simp [get_object_state, hv, builtIds]
    · cases hlk : alookup h.objs oid with
      | none => simp [get_object_state, hv, hlk, builtIds]
      | some d =>
        cases d with
        | primD lit => simp [get_object_state, hv, hlk, builtIds]
        | leafD ty payload =>
          have heq : get_object_state h inc (fuel + 1) visited oid =
              (.obj oid ty payload [], oid :: visited) := by
            simp [get_object_state, hv, hlk]
          rw [heq]
          refine ⟨?_, ?_, ?_⟩
          · simp [builtIds, builtIdsList]
          · intro i hi
            simp [builtIds, builtIdsList] at hi
            rw [hi]
            exact hv
          · intro i
            simp [builtIds, builtIdsList]
            tauto
        | containerD ty cs =>
          have hc := go_children_spec h inc fuel (oid :: visited) cs
          have heq : get_object_state h inc (fuel + 1) visited oid =
              (.obj oid ty "container" (get_children h inc fuel (oid :: visited) cs).1,
                (get_children h inc fuel (oid :: visited) cs).2) := by
            simp [get_object_state, hv, hlk]
          rw [heq]
          refine ⟨?_, ?_, ?_⟩
          · simp only [builtIds, List.nodup_cons]
            refine ⟨?_, hc.1⟩
            intro hmem
            exact (hc.2.1 oid hmem) (List.mem_cons_self _ _)
          · intro i hi
            simp only [builtIds] at hi
            rcases List.mem_cons.mp hi with rfl | hi
            · exact hv
            · intro hiv
              exact (hc.2.1 i hi) (List.mem_cons_of_mem _ hiv)
          · intro i
            simp only [builtIds]
            rw [hc.2.2 i]
            simp only [List.mem_cons]
            tauto
termination_by fuel _ _ => (fuel, 0)

/-- Child-list version of `go_spec`, with the visited map threaded. -/
theorem go_children_spec (h : PyHeap) (inc : Bool) :
    ∀ (fuel : Nat) (visited : List Nat) (cs : List Nat),
      (builtIdsList (get_children h inc fuel visited cs).1).Nodup ∧
      (∀ i, i ∈ builtIdsList (get_children h inc fuel visited cs).1 → i ∉ visited) ∧
      (∀ i, i ∈ (get_children h inc fuel visited cs).2 ↔
        i ∈ visited ∨ i ∈ builtIdsList (get_children h inc fuel visited cs).1)
  | fuel, visited, [] => by
    simp [get_children, builtIdsList]
  | fuel, visited, c :: cs => by
    have h1 := go_spec h inc fuel visited c
    have h2 := go_children_spec h inc fuel
      (get_object_state h inc fuel visited c).2 cs
    refine ⟨?_, ?_, ?_⟩
    · simp only [get_children, builtIdsList]
      rw [List.nodup_append]
      refine ⟨h1.1, h2.1, ?_⟩
      intro i hi1 hi2
      exact (h2.2.1 i hi2) ((h1.2.2 i).mpr (Or.inr hi1))
    · intro i hi
      simp only [get_children, builtIdsList, List.mem_append] at hi
      rcases hi with hi | hi
      · exact h1.2.1 i hi
      · intro hiv
        exact (h2.2.1 i hi) ((h1.2.2 i).mpr (Or.inl hiv))
    · intro i
      simp only [get_children, builtIdsList, List.mem_append]
      rw [h2.2.2 i, h1.2.2 i]
      tauto
termination_by fuel _ cs => (fuel, cs.length + 1)
end

end ObjectState

/-- Claim C6: the visited map is consulted before dispatch — a hit returns
the back-edge reference to the already-built node and leaves the map
untouched (object_state.py lines 24-26); a first visit of a non-primitive
identity records a new node for it; `create_idgraph` starts every
top-level build with a fresh empty visited map (object_state.py lines
5-7); and consequently, within one fingerprint, every identity labels at
most one fully built node (revisits are back-edges, never new subtrees). -/
theorem C6_visited_map_discipline (h : ObjectState.PyHeap) (oid : Nat) :
    (∀ fuel visited, oid ∈ visited →
      ObjectState.get_object_state h true fuel visited oid = (.ref oid, visited)) ∧
    (∀ fuel visited d, oid ∉ visited → alookup h.objs oid = some d →
      (∀ lit, d ≠ .primD lit) →
      oid ∈ ObjectState.builtIds
        (ObjectState.get_object_state h true (fuel + 1) visited oid).1 ∧
      oid ∈ (ObjectState.get_object_state h true (fuel + 1) visited oid).2) ∧
    (ObjectState.create_idgraph h oid =
      (ObjectState.get_object_state h true (h.objs.length + 1) [] oid).1) ∧
    (ObjectState.builtIds (ObjectState.create_idgraph h oid)).Nodup := by
  refine ⟨?_, ?_, rfl, ?_⟩
  · intro fuel visited hv
    cases fuel with
    | zero => simp [ObjectState.get_object_state]
    | succ fuel => simp [ObjectState.get_object_state, hv]
  · intro fuel visited d hv hlk hnp
    cases d with
    | primD lit => exact absurd rfl (hnp lit)
    | leafD ty payload =>
      have heq : ObjectState.get_object_state h true (fuel + 1) visited oid =
          (.obj oid ty payload [], oid :: visited) := by
        simp [ObjectState.get_object_state, hv, hlk]
      rw [heq]
      simp [ObjectState.builtIds]
    | containerD ty cs =>
      have heq : ObjectState.get_object_state h true (fuel + 1) visited oid =
          (.obj oid ty "container"
              (ObjectState.get_children h true fuel (oid :: visited) cs).1,
            (ObjectState.get_children h true fuel (oid :: visited) cs).2) := by
        simp [ObjectState.get_object_state, hv, hlk]
      rw [heq]
      constructor
      · simp [ObjectState.builtIds]
      · have hc := ObjectState.go_children_spec h true fuel (oid :: visited) cs
        exact (hc.2.2 oid).mpr (Or.inl (List.mem_cons_self _ _))
  · exact (ObjectState.go_spec h true (h.objs.length + 1) [] oid).1

/-- Witness for C6 on a cyclic two-object heap (a list that contains
itself and a primitive): the visited hit returns a back-edge unchanged,
and the finished fingerprint builds identity 1 exactly once. -/
theorem C6_visited_map_discipline_witness :
    let h : ObjectState.PyHeap := ⟨[(1, .containerD "list" [2, 1]), (2, .primD "7")]⟩
    ObjectState.get_object_state h true 3 [1] 1 = (.ref 1, [1]) ∧
    (ObjectState.builtIds (ObjectState.create_idgraph h 1)).Nodup :=
  ⟨(C6_visited_map_discipline ⟨[(1, .containerD "list" [2, 1]), (2, .primD "7")]⟩ 1).1
      3 [1] (by decide),
    (C6_visited_map_discipline ⟨[(1, .containerD "list" [2, 1]), (2, .primD "7")]⟩ 1).2.2.2⟩

/-! ## Version stamping of `update_graph` (claim C5) -/

theorem ug_groups_arena (g : AHGm) (modified : List String) (version cn : Nat)
    (groups : List (List String)) :
    ∀ (arena : List VariableSnapshot) (act : List (String × Nat)) (dst : List Nat),
      ∃ extra,
        (groups.foldl (AHGm.ug_groups_step g modified version cn) (arena, act, dst)).1 =
          arena ++ extra ∧ ∀ vs ∈ extra, vs.version = version := by
  induction groups with
  | nil =>
    intro arena act dst
    exact ⟨[], by simp, by simp⟩
  | cons gp gs ih =>
    intro arena act dst
    simp only [List.foldl_cons]
    cases hr : g.reuse_id modified gp with
    | some i =>
      have step : AHGm.ug_groups_step g modified version cn (arena, act, dst) gp =
          (arena, act, dst ++ [i]) := by
        simp [AHGm.ug_groups_step, hr]
      rw [step]
      exact ih arena act (dst ++ [i])
    | none =>
      have step : AHGm.ug_groups_step g modified version cn (arena, act, dst) gp =
          (arena ++ [⟨gp, version, false, cn, 0⟩],
            gp.foldl (fun a n => ainsert a n arena.length) act, dst ++ [arena.length]) := by
        simp [AHGm.ug_groups_step, hr]
      rw [step]
      obtain ⟨extra, he, hv⟩ := ih (arena ++ [⟨gp, version, false, cn, 0⟩])
        (gp.foldl (fun a n => ainsert a n arena.length) act) (dst ++ [arena.length])
      refine ⟨⟨gp, version, false, cn, 0⟩ :: extra, ?_, ?_⟩
      · rw [he]; simp
      · intro vs hvs
        rcases List.mem_cons.mp hvs with rfl | hvs
        · rfl
        · exact hv vs hvs

theorem ug_deleted_arena (version cn : Nat) (deleted : List String) :
    ∀ (arena : List VariableSnapshot) (act : List (String × Nat)) (dst : List Nat),
      ∃ extra,
        (deleted.foldl (AHGm.ug_deleted_step version cn) (arena, act, dst)).1 =
          arena ++ extra ∧ ∀ vs ∈ extra, vs.version = version := by
  induction deleted with
  | nil =>
    intro arena act dst
    exact ⟨[], by simp, by simp⟩
  | cons n ds ih =>
    intro arena act dst
    simp only [List.foldl_cons]
    have step : AHGm.ug_deleted_step version cn (arena, act, dst) n =
        (arena ++ [⟨[n], version, true, cn, 0⟩], aerase act n, dst ++ [arena.length]) := by
      simp [AHGm.ug_deleted_step]
    rw [step]
    obtain ⟨extra, he, hv⟩ := ih (arena ++ [⟨[n], version, true, cn, 0⟩])
      (aerase act n) (dst ++ [arena.length])
    refine ⟨⟨[n], version, true, cn, 0⟩ :: extra, ?_, ?_⟩
    · rw [he]; simp
    · intro vs hvs
      rcases List.mem_cons.mp hvs with rfl | hvs
      · rfl
      · exact hv vs hvs

/-- `update_graph` only appends snapshots, all stamped with the given
version. -/
theorem update_graph_arena (g : AHGm) (code : Option String) (version runtime : Nat)
    (accessed current : List String) (linked : List (String × String))
    (modified deleted : List String) :
    ∃ extra,
      (g.update_graph code version runtime accessed current linked
          modified deleted).variable_snapshots = g.variable_snapshots ++ extra ∧
      ∀ vs ∈ extra, vs.version = version := by
  obtain ⟨e1, he1, hv1⟩ := ug_groups_arena g modified version g.cell_executions.length
    (co_groups current linked) g.variable_snapshots g.active []
  set st1 := (co_groups current linked).foldl
    (AHGm.ug_groups_step g modified version g.cell_executions.length)
    (g.variable_snapshots, g.active, []) with hst1
  obtain ⟨e2, he2, hv2⟩ := ug_deleted_arena version g.cell_executions.length deleted
    st1.1 st1.2.1 st1.2.2
  refine ⟨e1 ++ e2, ?_, ?_⟩
  · show (deleted.foldl (AHGm.ug_deleted_step version g.cell_executions.length) st1).1 =
      g.variable_snapshots ++ (e1 ++ e2)
    rw [show st1 = (st1.1, st1.2.1, st1.2.2) from rfl] at *
    rw [he2, he1, List.append_assoc]
  · intro vs hvs
    rcases List.mem_append.mp hvs with h | h
    · exact hv1 vs h
    · exact hv2 vs h

/-- A successful `post_run_cell_update` replaces the AHG with the
`update_graph` result and keeps everything else about the history. -/
theorem post_run_some_ahg (s : PlannerState) (version : Nat) (code : Option String)
    (runtime : Option Nat) (s' : PlannerState) (cv : ChangedVariables)
    (h : post_run_cell_update s version code runtime = some (s', cv)) :
    ∃ lp, (post_run_parts s).linked = some lp ∧
      s'.ahg = s.ahg.update_graph code version (runtime.getD 0)
        (post_run_parts s).accessed s.user_ns.keyset lp
        (post_run_parts s).ms (post_run_parts s).deleted := by
  simp only [post_run_cell_update] at h
  cases hl : (post_run_parts s).linked with
  | none => rw [hl] at h; simp at h
  | some lp =>
    rw [hl] at h
    simp at h
    exact ⟨lp, rfl, by rw [← h.1]⟩

/-- Snapshots all stamped with one version are pairwise non-decreasing. -/
theorem pairwise_of_const_version (l : List VariableSnapshot) (v : Nat)
    (h : ∀ vs ∈ l, vs.version = v) :
    l.Pairwise (fun a b => a.version ≤ b.version) := by
  induction l with
  | nil => exact List.Pairwise.nil
  | cons x xs ih =>
    refine List.Pairwise.cons ?_ (ih (fun vs hvs => h vs (List.mem_cons_of_mem _ hvs)))
    intro b hb
    rw [h x (List.mem_cons_self _ _), h b (List.mem_cons_of_mem _ hb)]

/-- Running cell rounds with non-decreasing clock readings keeps the
snapshot arena sorted by version in creation order. -/
theorem run_cells_versions_sorted (steps : List CellStep) :
    ∀ (s : PlannerState) (s' : PlannerState),
      s.ahg.variable_snapshots.Pairwise (fun a b => a.version ≤ b.version) →
      (∀ vs ∈ s.ahg.variable_snapshots, ∀ st ∈ steps, vs.version ≤ st.version) →
      (steps.map CellStep.version).Pairwise (fun a b => a ≤ b) →
      run_cells s steps = some s' →
      s'.ahg.variable_snapshots.Pairwise (fun a b => a.version ≤ b.version) := by
  induction steps with
  | nil =>
    intro s s' hpw _ _ hrun
    simp only [run_cells] at hrun
    injection hrun with hrun
    rw [← hrun]
    exact hpw
  | cons st rest ih =>
    intro s s' hpw hbound hsorted hrun
    simp only [run_cells] at hrun
    cases hc : run_cell s st with
    | none => rw [hc] at hrun; simp at hrun
    | some s1 =>
      rw [hc] at hrun
      have hnext : run_cells s1 rest = some s' := hrun
      simp only [run_cell] at hc
      cases hp : post_run_cell_update
          { pre_run_cell_update s with user_ns := st.ns } st.version
          (some st.code) (some st.runtime) with
      | none => rw [hp] at hc; simp at hc
      | some pr =>
        rw [hp] at hc
        simp at hc
        obtain ⟨lp, _, hahg⟩ := post_run_some_ahg _ _ _ _ pr.1 pr.2 (by
          rw [hp])
        obtain ⟨extra, he, hv⟩ := update_graph_arena
          ({ pre_run_cell_update s with user_ns := st.ns }).ahg (some st.code)
          st.version ((some st.runtime).getD 0)
          (post_run_parts { pre_run_cell_update s with user_ns := st.ns }).accessed
          ({ pre_run_cell_update s with user_ns := st.ns }).user_ns.keyset lp
          (post_run_parts { pre_run_cell_update s with user_ns := st.ns }).ms
          (post_run_parts { pre_run_cell_update s with user_ns := st.ns }).deleted
        have harena : s1.ahg.variable_snapshots = s.ahg.variable_snapshots ++ extra := by
          rw [← hc, hahg, he]
          rfl
        have hs2 : (∀ a ∈ rest, st.version ≤ a.version) ∧
            (rest.map CellStep.version).Pairwise (fun a b => a ≤ b) := by
          simpa using hsorted
        have hstver : ∀ st' ∈ rest, st.version ≤ st'.version := hs2.1
        apply ih s1 s'
        · rw [harena, List.pairwise_append]
          refine ⟨hpw, pairwise_of_const_version extra st.version hv, ?_⟩
          intro a ha b hb
          rw [hv b hb]
          exact hbound a ha st (List.mem_cons_self _ _)
        · intro vs hvs st' hst'
          rw [harena] at hvs
          rcases List.mem_append.mp hvs with hvs | hvs
          · exact hbound vs hvs st' (List.mem_cons_of_mem _ hst')
          · rw [hv vs hvs]
            exact hstver st' hst'
        · exact hs2.2
        · exact hnext

/-- Claim C5 (amended): within one planner instance, snapshot versions are
non-decreasing in creation order.  The version of every snapshot created
by a `post_run_cell_update` call is the `time.monotonic_ns()` reading of
that call (planner.py lines 94-95), and Python guarantees the monotonic
clock never decreases — but not that it strictly increases — between
calls; under that clock contract, any two snapshots `a` created no later
than `b` satisfy `a.version ≤ b.version`. -/
theorem C5_versions_monotone (steps : List CellStep) (s' : PlannerState)
    (hclock : (steps.map CellStep.version).Pairwise (fun a b => a ≤ b))
    (hrun : run_cells init_planner steps = some s') :
    s'.ahg.variable_snapshots.Pairwise (fun a b => a.version ≤ b.version) :=
  run_cells_versions_sorted steps init_planner s'
    (by simp [init_planner]) (by simp [init_planner]) hclock hrun

/-- Two rounds with clock readings 5 and 6. -/
def c5w_steps : List CellStep :=
  [⟨⟨[("x", .prim "1")], []⟩, 5, "x = 1", 0⟩,
   ⟨⟨[("x", .prim "2")], []⟩, 6, "x = 2", 0⟩]

/-- The planner state those two rounds produce. -/
def c5w_state : PlannerState :=
  (run_cells init_planner c5w_steps).getD init_planner

/-- Witness for C5 (amended) at the two-round run with clocks 5, 6. -/
theorem C5_versions_monotone_witness :
    c5w_state.ahg.variable_snapshots.Pairwise (fun a b => a.version ≤ b.version) :=
  C5_versions_monotone c5w_steps c5w_state (by decide) (by rfl)

/-- Two rounds on which `time.monotonic_ns()` returns the same reading 5
twice (the monotonic clock may stall between calls). -/
def c5_bad_steps : List CellStep :=
  [⟨⟨[("x", .prim "1")], []⟩, 5, "x = 1", 0⟩,
   ⟨⟨[("x", .prim "1"), ("y", .prim "2")], []⟩, 5, "y = 2", 0⟩]

/-- Counterexample to claim C5 as stated: after the two rounds of
`c5_bad_steps` the arena holds, in creation order, the snapshot of `x`
(created by cell execution 0) and the snapshot of `y` (created by the
later cell execution 1), both stamped 5 — so the earlier-created snapshot
does not have a strictly smaller version and versions are not unique. -/
theorem C5_equal_clock_counterexample :
    (run_cells init_planner c5_bad_steps).map
      (fun s => s.ahg.variable_snapshots.map (fun vs => (vs.version, vs.output_ce))) =
      some [(5, 0), (5, 1)] ∧ ¬ (5 < 5) :=
  ⟨rfl, by decide⟩

/-! ## Restore plans never carry load actions (claim C3)

Because of the frozenset `.name` defect (see `load_name_list`), a restore
plan that is successfully produced contains rerun actions only. -/

theorem grp_fold_none (ces : List Nat) (m : List (Nat × List (List String)))
    (req : List (Nat × List Nat)) (ce_dict : List (Nat × CellExecution))
    (ceList : List CellExecution) :
    ceList.foldl (grp_step ces m req ce_dict) none = none := by
  induction ceList with
  | nil => rfl
  | cons ce rest ih => simpa [grp_step] using ih

theorem grp_fold_no_load (ces : List Nat) (m : List (Nat × List (List String)))
    (req : List (Nat × List Nat)) (ce_dict : List (Nat × CellExecution))
    (ceList : List CellExecution) :
    ∀ (acc0 : List RestoreAction), (∀ a ∈ acc0, a.isLoad = false) →
      ∀ acts, ceList.foldl (grp_step ces m req ce_dict) (some acc0) = some acts →
        ∀ a ∈ acts, a.isLoad = false := by
  induction ceList with
  | nil =>
    intro acc0 hacc acts h
    simp only [List.foldl_nil] at h
    injection h with h
    rw [← h]
    exact hacc
  | cons ce rest ih =>
    intro acc0 hacc acts h
    simp only [List.foldl_cons] at h
    by_cases hb : (bucket m ce.cell_num).length > 0
    · exfalso
      have hnone : grp_step ces m req ce_dict (some acc0) ce = none := by
        have hln : load_name_list (bucket m ce.cell_num) = none := by
          cases hbv : bucket m ce.cell_num with
          | nil => rw [hbv] at hb; simp at hb
          | cons x xs => rfl
        simp only [grp_step, if_pos hb, hln]
      rw [hnone, grp_fold_none] at h
      exact Option.noConfusion h
    · have hstep : grp_step ces m req ce_dict (some acc0) ce =
          some (if ce.cell_num ∈ ces then
            acc0 ++ [RestoreAction.rerun ce.cell_num ce.cell] else acc0) := by
        simp only [grp_step, if_neg hb]
      rw [hstep] at h
      refine ih _ ?_ acts h
      intro a ha
      by_cases hc : ce.cell_num ∈ ces
      · rw [if_pos hc] at ha
        rcases List.mem_append.mp ha with ha | ha
        · exact hacc a ha
        · simp at ha
          rw [ha]
          rfl
      · rw [if_neg hc] at ha
        exact hacc a ha

/-- A successfully produced restore plan contains no load action. -/
theorem restore_plan_no_load (g : AHGm) (ces : List Nat)
    (m : List (Nat × List (List String))) (req : List (Nat × List Nat))
    (acts : List RestoreAction) (h : generate_restore_plan g ces m req = some acts) :
    ∀ a ∈ acts, a.isLoad = false :=
  grp_fold_no_load ces m req _ g.get_cell_executions [] (by simp) acts h

/-- In incremental mode, every candidate the optimizer sees is unstored. -/
theorem plan_setup_cands_unstored (profiler : List GraphNode → Nat)
    (storedVNs : List VersionedName) (s : PlannerState) (g2 : AHGm)
    (cands : List VariableSnapshot)
    (h : plan_setup profiler storedVNs s = some (g2, cands))
    (hinc : s.incremental_store = true) :
    ∀ vs ∈ cands, (⟨vs.name, vs.version⟩ : VersionedName) ∉ storedVNs := by
  unfold plan_setup at h
  cases hp : plan_profile profiler s with
  | none => rw [hp] at h; simp at h
  | some r =>
    rw [hp] at h
    simp only [Option.map_some, Option.some.injEq] at h
    obtain ⟨g2', ids⟩ := r
    rw [hinc] at h
    simp at h
    intro vs hvs
    rw [← h.2] at hvs
    have := List.of_mem_filter hvs
    simpa using this

/-- A successful plan generation's restore plan comes from
`generate_restore_plan`. -/
theorem gen_plans_core_restore_src
    (computePlan : AHGm → List VariableSnapshot → Option (List VersionedName) →
      List VersionedName × List Nat × List (Nat × List Nat))
    (storedVNs : List VersionedName) (inc : Bool) (g2 : AHGm)
    (cands : List VariableSnapshot) (cp : CheckpointPlanE) (rp : List RestoreAction)
    (h : gen_plans_core computePlan storedVNs inc g2 cands = some (cp, rp)) :
    ∃ ces m req, generate_restore_plan g2 ces m req = some rp := by
  unfold gen_plans_core at h
  simp only [] at h
  split at h
  · exact Option.noConfusion h
  · split at h
    · exact Option.noConfusion h
    · split at h
      · exact Option.noConfusion h
      · rename_i restore_plan hr
        injection h with h
        injection h with h1 h2
        exact ⟨_, _, _, h2 ▸ hr⟩

/-- A successful plan generation goes through `gen_plans_core` on the
profiled AHG and the filtered candidates. -/
theorem gen_plans_via_core
    (computePlan : AHGm → List VariableSnapshot → Option (List VersionedName) →
      List VersionedName × List Nat × List (Nat × List Nat))
    (profiler : List GraphNode → Nat) (storedVNs : List VersionedName)
    (s : PlannerState) (cp : CheckpointPlanE) (rp : List RestoreAction)
    (h : generate_checkpoint_restore_plans computePlan profiler storedVNs s =
      some (cp, rp)) :
    ∃ g2 cands, plan_setup profiler storedVNs s = some (g2, cands) ∧
      gen_plans_core computePlan storedVNs s.incremental_store g2 cands =
        some (cp, rp) := by
  unfold generate_checkpoint_restore_plans at h
  cases hs : plan_setup profiler storedVNs s with
  | none =>
    rw [hs] at h
    exact Option.noConfusion h
  | some r =>
    rw [hs] at h
    obtain ⟨g2, cands⟩ := r
    exact ⟨g2, cands, rfl, h⟩

/-- The spec-modelled optimizer migrates only (filtered) active snapshots:
`M ⊆ A` (spec §4.5). -/
theorem compute_plan_sub (g : AHGm) (A : List VariableSnapshot)
    (st : Option (List VersionedName)) :
    ∀ vn' ∈ (compute_plan g A st).1,
      ∃ vs ∈ A, vn' = ⟨vs.name, vs.version⟩ := by
  intro vn' h
  simp only [compute_plan] at h
  obtain ⟨vs, hvs, hq⟩ := List.mem_map.mp h
  exact ⟨vs, hvs, hq.symm⟩

/-- Claim C3 (amended): in incremental-store mode, every active snapshot
whose `VersionedName` is already stored under a parent commit is excluded
from `vss_to_migrate` (planner.py lines 166-173 filter it out before the
optimizer, and the optimizer only chooses among its candidates, spec
§4.5); and the returned `RestorePlan` does **not** reference it through a
`LoadVariable` action — a successfully produced restore plan contains no
load action at all, because load-action emission reads the missing `name`
attribute on a frozenset (planner.py line 241). -/
theorem C3_incremental_store_skip
    (computePlan : AHGm → List VariableSnapshot → Option (List VersionedName) →
      List VersionedName × List Nat × List (Nat × List Nat))
    (profiler : List GraphNode → Nat) (storedVNs : List VersionedName)
    (s : PlannerState) (vn : VersionedName)
    (hsub : ∀ g A st, ∀ vn' ∈ (computePlan g A st).1,
      ∃ vs ∈ A, vn' = ⟨vs.name, vs.version⟩)
    (hinc : s.incremental_store = true) (hstored : vn ∈ storedVNs) :
    vn ∉ planner_vss_to_migrate computePlan profiler storedVNs s ∧
    (∀ cp rp, generate_checkpoint_restore_plans computePlan profiler storedVNs s =
        some (cp, rp) → ∀ a ∈ rp, a.isLoad = false) := by
  constructor
  · intro hmem
    unfold planner_vss_to_migrate at hmem
    cases hs : plan_setup profiler storedVNs s with
    | none =>
      rw [hs] at hmem
      simp at hmem
    | some r =>
      rw [hs] at hmem
      obtain ⟨g2, cands⟩ := r
      have hmem' : vn ∈ (computePlan g2 cands
          (if s.incremental_store then some storedVNs else none)).1 := hmem
      obtain ⟨vs, hvs, hq⟩ := hsub g2 cands _ vn hmem'
      have hnst := plan_setup_cands_unstored profiler storedVNs s g2 cands hs hinc vs hvs
      rw [← hq] at hnst
      exact hnst hstored
  · intro cp rp h a ha
    obtain ⟨g2, cands, _, hcore⟩ :=
      gen_plans_via_core computePlan profiler storedVNs s cp rp h
    obtain ⟨ces, m, req, hr⟩ :=
      gen_plans_core_restore_src computePlan storedVNs s.incremental_store g2 cands
        cp rp hcore
    exact restore_plan_no_load g2 ces m req rp hr a ha

/-- The incremental-store planner state of spec scenario S6: one active
snapshot `(names ("y"), version 100)`, already stored under the parent
commit. -/
def c3_state : PlannerState :=
  ⟨⟨[⟨["y"], 100, false, 0, 0⟩], [⟨0, "y = 1", 0, [], [0]⟩], [("y", 0)]⟩,
   ⟨[("y", .prim "1")], []⟩, [("y", .prim "1")], [], true, false⟩

/-- Counterexample to claim C3 as stated: the stored snapshot of `y` is
excluded from migration (the incremental checkpoint plan is empty), but
the returned `RestorePlan` is empty too — it does **not** reference the
snapshot via any `LoadVariable` action, contrary to the claim's second
half (and spec scenario S6). -/
theorem C3_stored_snapshot_not_loaded :
    generate_checkpoint_restore_plans compute_plan (fun _ => 1)
      [⟨["y"], 100⟩] c3_state = some (.incr [], []) := rfl

/-- Witness for C3 (amended) at the S6 scenario. -/
theorem C3_incremental_store_skip_witness :
    ((⟨["y"], 100⟩ : VersionedName) ∉
      planner_vss_to_migrate compute_plan (fun _ => 1) [⟨["y"], 100⟩] c3_state) ∧
    (∀ cp rp, generate_checkpoint_restore_plans compute_plan (fun _ => 1)
        [⟨["y"], 100⟩] c3_state = some (cp, rp) → ∀ a ∈ rp, a.isLoad = false) :=
  C3_incremental_store_skip compute_plan (fun _ => 1) [⟨["y"], 100⟩] c3_state
    ⟨["y"], 100⟩ (fun g A st => compute_plan_sub g A st) rfl (by decide)

/-! ## The unchanged-namespace update (claim C9) -/

/-- A re-pointer id produced by `reuse_id` is an active snapshot id. -/
theorem reuse_id_active (g : AHGm) (modified : List String) (gp : List String) (i : Nat)
    (h : g.reuse_id modified gp = some i) : i ∈ g.active.map Prod.snd := by
  cases gp with
  | nil => exact Option.noConfusion h
  | cons n rest =>
    simp only [AHGm.reuse_id] at h
    split at h
    · exact Option.noConfusion h
    · rename_i j ha
      split at h
      · injection h with h
        rw [← h]
        exact List.mem_map.mpr ⟨(n, j), mem_of_alookup_eq_some ha, rfl⟩
      · exact Option.noConfusion h

/-- When every group re-points, the group fold only appends the re-pointer
ids to `dst` and leaves arena and active map unchanged. -/
theorem ug_groups_all_reuse (g : AHGm) (modified : List String) (version cn : Nat)
    (groups : List (List String))
    (h : ∀ gp ∈ groups, (g.reuse_id modified gp).isSome) :
    ∀ (arena : List VariableSnapshot) (act : List (String × Nat)) (dst : List Nat),
      groups.foldl (AHGm.ug_groups_step g modified version cn) (arena, act, dst) =
        (arena, act, dst ++ groups.filterMap (g.reuse_id modified)) := by
  induction groups with
  | nil =>
    intro arena act dst
    simp
  | cons gp gs ih =>
    intro arena act dst
    obtain ⟨i, hi⟩ := Option.isSome_iff_exists.mp (h gp (List.mem_cons_self _ _))
    simp only [List.foldl_cons]
    have step : AHGm.ug_groups_step g modified version cn (arena, act, dst) gp =
        (arena, act, dst ++ [i]) := by
      simp [AHGm.ug_groups_step, hi]
    rw [step, ih (fun gp' h' => h gp' (List.mem_cons_of_mem _ h')) arena act (dst ++ [i])]
    simp [List.filterMap_cons, hi]

/-- With no modified and no deleted names, and every co-variable group
re-pointing to its previous snapshot, `update_graph` appends exactly one
cell execution whose `dst_vss` are the re-pointer ids, and leaves the
snapshot arena and the active map unchanged. -/
theorem update_graph_all_reuse (g : AHGm) (code : Option String) (version runtime : Nat)
    (accessed current : List String) (linked : List (String × String))
    (h : ∀ gp ∈ co_groups current linked, (g.reuse_id [] gp).isSome) :
    ∃ ce, g.update_graph code version runtime accessed current linked [] [] =
        { variable_snapshots := g.variable_snapshots,
          cell_executions := g.cell_executions ++ [ce],
          active := g.active } ∧
      ∀ i ∈ ce.dst_vss, i ∈ g.active.map Prod.snd := by
  have hfold := ug_groups_all_reuse g [] version g.cell_executions.length
    (co_groups current linked) h g.variable_snapshots g.active []
  refine ⟨⟨g.cell_executions.length, code.getD "", runtime,
    ((((accessed ++ []).eraseDups).filterMap (alookup g.active)).eraseDups),
    (co_groups current linked).filterMap (g.reuse_id [])⟩, ?_, ?_⟩
  · unfold AHGm.update_graph
    simp only [List.foldl_nil, hfold, List.nil_append]
  · intro i hi
    obtain ⟨gp, _, hgp⟩ := List.mem_filterMap.mp hi
    exact reuse_id_active g [] gp i hgp

/-- Claim C9: running `post_run_cell_update("", 0)` when the namespace and
all bound values are unchanged since the previous update (same binding
set, every mapped fingerprint equal to the freshly built one, every bound
name fingerprinted) and the AHG's active groups match the current
co-variable partition, returns a `ChangedVariables` with all four sets
empty and appends exactly one cell execution whose `dst_vss` contains only
re-pointers to the existing active (unchanged-group) snapshots — no new
snapshot is created and the active map is untouched. -/
theorem C9_idempotent_update (s : PlannerState) (version : Nat)
    (hkeys : ∀ k, k ∈ s.user_ns.keyset ↔ k ∈ s.pre_run_cell_vars)
    (hsync : ∀ k g, (k, g) ∈ s.id_graph_map →
      s.user_ns.get k = none ∨ s.user_ns.get k = some g)
    (hcover : ∀ k ∈ s.user_ns.keyset, (alookup s.id_graph_map k).isSome)
    (hgroups : ∀ lp, linked_var_pairs s.id_graph_map s.user_ns.keyset = some lp →
      ∀ gp ∈ co_groups s.user_ns.keyset lp, (s.ahg.reuse_id [] gp).isSome) :
    ∃ s', post_run_cell_update s version (some "") (some 0) =
        some (s', ⟨[], [], [], []⟩) ∧
      s'.ahg.variable_snapshots = s.ahg.variable_snapshots ∧
      s'.ahg.active = s.ahg.active ∧
      ∃ ce, s'.ahg.cell_executions = s.ahg.cell_executions ++ [ce] ∧
        ∀ i ∈ ce.dst_vss, i ∈ s.ahg.active.map Prod.snd := by
  have hcl := classify_unchanged s.user_ns s.id_graph_map hsync
  have hcreated : (post_run_parts s).created = [] := by
    show s.user_ns.keyset.filter (fun v => decide (v ∉ s.pre_run_cell_vars)) = []
    rw [List.filter_eq_nil_iff]
    intro a ha
    simp [(hkeys a).mp ha]
  have hdeleted : (post_run_parts s).deleted = [] := by
    show s.pre_run_cell_vars.filter (fun v => decide (v ∉ s.user_ns.keyset)) = []
    rw [List.filter_eq_nil_iff]
    intro a ha
    simp [(hkeys a).mpr ha]
  have hmv : (post_run_parts s).mv = [] := by
    show (classify_modified s.user_ns s.id_graph_map).mv = []
    rw [hcl]
  have hms : (post_run_parts s).ms = [] := by
    show (classify_modified s.user_ns s.id_graph_map).ms = []
    rw [hcl]
  have hm2 : (post_run_parts s).m2 = s.id_graph_map := by
    show (s.user_ns.keyset.filter (fun v => decide (v ∉ s.pre_run_cell_vars))).foldl _
      (classify_modified s.user_ns s.id_graph_map).m' = s.id_graph_map
    rw [show (s.user_ns.keyset.filter (fun v => decide (v ∉ s.pre_run_cell_vars))) = []
      from hcreated, hcl]
    rfl
  have hlinked : (post_run_parts s).linked =
      linked_var_pairs s.id_graph_map s.user_ns.keyset := by
    show linked_var_pairs (post_run_parts s).m2 s.user_ns.keyset = _
    rw [hm2]
  obtain ⟨lp, hlp⟩ := Option.isSome_iff_exists.mp
    (linked_var_pairs_isSome s.id_graph_map s.user_ns.keyset hcover)
  have hlp' : (post_run_parts s).linked = some lp := by rw [hlinked, hlp]
  have hreu := hgroups lp hlp
  obtain ⟨ce, hug, hdst⟩ := update_graph_all_reuse s.ahg (some "") version 0
    (post_run_parts s).accessed s.user_ns.keyset lp hreu
  refine ⟨{ s with
      ahg := s.ahg.update_graph (some "") version 0 (post_run_parts s).accessed
        s.user_ns.keyset lp [] []
      id_graph_map := (post_run_parts s).m2
      user_ns := s.user_ns.reset_accessed_vars }, ?_, ?_, ?_, ?_⟩
  · simp only [post_run_cell_update]
    rw [hlp']
    simp only [Option.getD_some, hcreated, hdeleted, hmv, hms]
  · rw [hug]
  · rw [hug]
  · refine ⟨ce, ?_, hdst⟩
    rw [hug]

/-- A one-variable planner state in which nothing changed since the last
update: `x` is bound to the same list, its fingerprint is cached, and the
AHG's single active snapshot covers exactly the group of `x`. -/
def c9_state : PlannerState :=
  ⟨⟨[⟨["x"], 10, false, 0, 0⟩], [⟨0, "x = [1]", 0, [], [0]⟩], [("x", 0)]⟩,
   ⟨[("x", .obj 1 "list" "container" [.prim "1"])], []⟩,
   [("x", .obj 1 "list" "container" [.prim "1"])], ["x"], false, false⟩

/-- Witness for C9 at the concrete unchanged state. -/
theorem C9_idempotent_update_witness :
    ∃ s', post_run_cell_update c9_state 11 (some "") (some 0) =
        some (s', ⟨[], [], [], []⟩) ∧
      s'.ahg.variable_snapshots = c9_state.ahg.variable_snapshots ∧
      s'.ahg.active = c9_state.ahg.active ∧
      ∃ ce, s'.ahg.cell_executions = c9_state.ahg.cell_executions ++ [ce] ∧
        ∀ i ∈ ce.dst_vss, i ∈ c9_state.ahg.active.map Prod.snd :=
  C9_idempotent_update c9_state 11
    (fun _ => Iff.rfl)
    (by
      intro k g hm
      injection List.mem_singleton.mp hm with h1 h2
      subst h1
      subst h2
      exact Or.inr rfl)
    (by
      intro k hk
      rw [List.mem_singleton.mp hk]
      rfl)
    (by
      intro lp hlp gp hgp
      have hl : some ([] : List (String × String)) = some lp := by
        rw [← hlp]
        rfl
      injection hl with hl
      subst hl
      have hgp' : gp ∈ [["x"]] := hgp
      rw [List.mem_singleton.mp hgp']
      rfl)
